import Mathlib

/-!
LocalTodo: a verification development of `LocalTodo/cmd/api/main.go`.

The program keeps a todo list in one JSON file (`./db.json`).  Every command
opens the file, loads the whole document, changes the list in memory and
writes the whole document back.

Modelling decisions.

* `Todo.ID` is a Go `uint8`.  It is a `Nat` here and every arithmetic step of
  the source on it is followed by an explicit `% 256`.
* The backing file is a sequence of characters together with the I/O offset of
  the open handle (`File`).  `Seek`, `Truncate` and `Write` act on it as the
  operating system does.  System calls do not fail in the model, so the
  branches of the source that only forward an I/O failure are not reachable.
* `encoding/json` is a library, not code of this repository.  It enters as a
  parameter `Json` (an encoder and a decoder) with the contract `Json.Lawful`.
  `refJson` is a concrete instance of that contract, working on real JSON
  text; it shows that the contract can be met and is used wherever a
  statement has to be evaluated on concrete file contents.
* `strconv.ParseInt(s, 10, 8)` and `strconv.ParseBool` are modelled after
  the Go standard library.
* A Go string is any sequence of bytes (`GoString`); a title is one.
  `encoding/json` writes a string as UTF-8 text and turns every byte that is
  not part of well-formed UTF-8 into U+FFFD (`coerceUTF8`); `unicode/utf8` is
  modelled after the Go standard library.  The id and the completed argument
  only pass through `strconv`, which looks at ASCII digits, signs and the
  twelve boolean words and reports an error for anything else; they are Lean
  strings.
* `log.Fatalf` ends the process; a command has the outcome `Result.fatal`.
-/

set_option linter.dupNamespace false

namespace LocalTodo

/-! ## Go strings and unicode/utf8 -/

/-- A byte. -/
abbrev Byte := Fin 256

/-- A Go string: any sequence of bytes. -/
abbrev GoString := List Byte

/-- The byte with the value `n`, for `n` below 256. -/
def byte (n : Nat) : Byte := ⟨n % 256, Nat.mod_lt _ (by decide)⟩

/-- The function `utf8.EncodeRune` on a Unicode scalar value. -/
def encodeRune (c : Char) : GoString :=
  if c.toNat < 128 then [byte c.toNat]
  else if c.toNat < 2048 then [byte (192 + c.toNat / 64), byte (128 + c.toNat % 64)]
  else if c.toNat < 65536 then
    [byte (224 + c.toNat / 4096), byte (128 + c.toNat / 64 % 64), byte (128 + c.toNat % 64)]
  else
    [byte (240 + c.toNat / 262144), byte (128 + c.toNat / 4096 % 64),
      byte (128 + c.toNat / 64 % 64), byte (128 + c.toNat % 64)]

/-- The UTF-8 encoding of a sequence of characters. -/
def encodeRunes (cs : List Char) : GoString := cs.flatMap encodeRune

/-- The Go string of a text: its UTF-8 encoding. -/
def goString (s : String) : GoString := encodeRunes s.data

/-- The function `utf8.DecodeRune`: the rune at the front of the string and
its width in bytes.  `none` with width 1 stands for `RuneError` at a byte
that begins no well-formed encoding; for the empty string the width is 0. -/
def decodeRune (s : GoString) : Option Char × Nat :=
  match s with
  | [] => (none, 0)
  | p0 :: rest =>
    if p0.val < 128 then (some (Char.ofNat p0.val), 1)
    else if p0.val < 194 ∨ 244 < p0.val then (none, 1)
    else
      let sz := if p0.val < 224 then 2 else if p0.val < 240 then 3 else 4
      let lo := if p0.val = 224 then 160 else if p0.val = 240 then 144 else 128
      let hi := if p0.val = 237 then 159 else if p0.val = 244 then 143 else 191
      if rest.length + 1 < sz then (none, 1)
      else
        match rest with
        | [] => (none, 1)
        | b1 :: rest1 =>
          if b1.val < lo ∨ hi < b1.val then (none, 1)
          else if sz ≤ 2 then (some (Char.ofNat (p0.val % 32 * 64 + b1.val % 64)), 2)
          else
            match rest1 with
            | [] => (none, 1)
            | b2 :: rest2 =>
              if b2.val < 128 ∨ 191 < b2.val then (none, 1)
              else if sz ≤ 3 then
                (some (Char.ofNat (p0.val % 16 * 4096 + b1.val % 64 * 64 + b2.val % 64)), 3)
              else
                match rest2 with
                | [] => (none, 1)
                | b3 :: _ =>
                  if b3.val < 128 ∨ 191 < b3.val then (none, 1)
                  else
                    (some (Char.ofNat (p0.val % 8 * 262144 + b1.val % 64 * 4096
                      + b2.val % 64 * 64 + b3.val % 64)), 4)

/-- The runes of a string, read front to back with `utf8.DecodeRune`. -/
def runesFuel : Nat → GoString → List (Option Char)
  | 0, _ => []
  | _ + 1, [] => []
  | fuel + 1, b :: bs =>
    (decodeRune (b :: bs)).1 :: runesFuel fuel ((b :: bs).drop (decodeRune (b :: bs)).2)

/-- The runes of a string; `none` is `RuneError` at an invalid byte. -/
def runes (s : GoString) : List (Option Char) := runesFuel s.length s

/-- The character written for a rune: U+FFFD for `RuneError`. -/
def runeOrError : Option Char → Char
  | some c => c
  | none => Char.ofNat 65533

/-- What `encoding/json` makes of a string: every byte that is not part of
well-formed UTF-8 becomes U+FFFD. -/
def coerceUTF8 (s : GoString) : GoString :=
  encodeRunes ((runes s).map runeOrError)

/-- The string is well-formed UTF-8. -/
def ValidUTF8 (s : GoString) : Prop := coerceUTF8 s = s

instance (s : GoString) : Decidable (ValidUTF8 s) := by
  unfold ValidUTF8; infer_instance

/-! ## Data model -/

/-- The record `Todo` of the source; `ID` is a `uint8`, `Title` a Go string. -/
structure Todo where
  ID : Nat
  Title : GoString
  Completed : Bool
deriving DecidableEq, Repr

/-- The todo as `encoding/json` writes it: the title is coerced to UTF-8. -/
def coerceTodo (t : Todo) : Todo := { t with Title := coerceUTF8 t.Title }

/-- The document `Todos` of the source: a list of todos under one field. -/
structure Todos where
  Todos : List Todo
deriving DecidableEq, Repr

/-- Every id of the list fits the `uint8` field. -/
def InRange (l : List Todo) : Prop := ∀ t ∈ l, t.ID < 256

instance (l : List Todo) : Decidable (InRange l) := by
  unfold InRange; infer_instance

/-! ## The backing file -/

/-- The open file `dbFile`: its content and the I/O offset of the handle. -/
structure File where
  data : List Char
  off : Nat
deriving DecidableEq, Repr

/-- The handle right after `os.OpenFile`: offset zero. -/
def openFile (disk : List Char) : File := { data := disk, off := 0 }

/-- The call `dbFile.Seek(0, io.SeekStart)`. -/
def File.Seek0 (f : File) : File := { f with off := 0 }

/-- The call `dbFile.Truncate(0)`: the size becomes zero, the offset stays. -/
def File.Truncate0 (f : File) : File := { f with data := [] }

/-- A write at the current offset: bytes under the written range are replaced,
a gap between the end of the file and the offset is filled with NUL. -/
def File.Write (f : File) (b : List Char) : File :=
  { data := (f.data ++ List.replicate (f.off - f.data.length) (Char.ofNat 0)).take f.off
              ++ b ++ f.data.drop (f.off + b.length),
    off := f.off + b.length }

/-! ## The JSON library as a parameter -/

/-- What `Decoder.Decode` reports. -/
inductive DecodeResult where
  | value (t : Todos)
  | eof
  | failure
deriving DecidableEq, Repr

/-- The part of `encoding/json` the program uses.  `Encode` is the text
`Encoder.Encode` writes for a document, `Decode` what `Decoder.Decode` makes of
the text of a stream, and `Consumed` how much of the stream the decoder has
read from the file when it returns a value or fails. -/
structure Json where
  Encode : Todos → List Char
  Decode : List Char → DecodeResult
  Consumed : List Char → Nat

/-- The contract of the library: an empty stream is reported as `io.EOF`; a
document written by the encoder is read back as it was, up to the coercion
of the titles to UTF-8; a decoded id fits its `uint8` field; and a decoded
title is well-formed UTF-8. -/
structure Json.Lawful (J : Json) : Prop where
  decode_nil : J.Decode [] = DecodeResult.eof
  decode_encode : ∀ l : List Todo, InRange l →
    J.Decode (J.Encode ⟨l⟩) = DecodeResult.value ⟨l.map coerceTodo⟩
  decode_range : ∀ d l, J.Decode d = DecodeResult.value ⟨l⟩ → InRange l
  decode_valid : ∀ d l, J.Decode d = DecodeResult.value ⟨l⟩ → ∀ t ∈ l, ValidUTF8 t.Title

/-! ## strconv -/

/-- The two errors of `strconv`: `ErrSyntax` and `ErrRange`. -/
inductive NumError where
  | badSyntax
  | outOfRange
deriving DecidableEq, Repr

deriving instance DecidableEq for Except

/-- The digit loop of `strconv.ParseUint(s, 10, 8)`: `maxVal` is 255; the test
against `cutoff` of the library guards the 64-bit product and cannot fire
while the accumulator is at most 255. -/
def parseUintLoop : Nat → List Char → Except NumError Nat
  | n, [] => .ok n
  | n, c :: cs =>
    if 48 ≤ c.toNat ∧ c.toNat ≤ 57 then
      let n1 := n * 10 + (c.toNat - 48)
      if n1 > 255 then .error .outOfRange else parseUintLoop n1 cs
    else .error .badSyntax

/-- The call `strconv.ParseUint(s, 10, 8)` on the characters of `s`. -/
def ParseUint (s : List Char) : Except NumError Nat :=
  if s = [] then .error .badSyntax else parseUintLoop 0 s

/-- The sign and range step of `strconv.ParseInt` for `bitSize` 8. -/
def parseIntSigned (neg : Bool) (digits : List Char) : Except NumError Int :=
  match ParseUint digits with
  | .error .badSyntax => .error .badSyntax
  | .error .outOfRange => .error .outOfRange
  | .ok un =>
    if !neg ∧ un ≥ 128 then .error .outOfRange
    else if neg ∧ un > 128 then .error .outOfRange
    else .ok (if neg then -(un : Int) else (un : Int))

/-- The call `strconv.ParseInt(s, 10, 8)`. -/
def ParseInt (s : String) : Except NumError Int :=
  match s.data with
  | [] => .error .badSyntax
  | c :: cs =>
    if c = Char.ofNat 43 then parseIntSigned false cs
    else if c = Char.ofNat 45 then parseIntSigned true cs
    else parseIntSigned false (c :: cs)

/-- The call `strconv.ParseBool(str)`. -/
def ParseBool (str : String) : Except NumError Bool :=
  if str = "1" ∨ str = "t" ∨ str = "T" ∨ str = "true" ∨ str = "TRUE" ∨ str = "True" then .ok true
  else if str = "0" ∨ str = "f" ∨ str = "F" ∨ str = "false" ∨ str = "FALSE" ∨ str = "False" then
    .ok false
  else .error .badSyntax

/-- The conversion `uint8(id)` of an `int64`. -/
def uint8 (id : Int) : Nat := (id % 256).toNat

/-! ## The program -/

/-- The errors the functions of the source build with `fmt.Errorf`. -/
inductive Err where
  | decodeJSON
  | invalidID (e : NumError)
  | invalidCompleted (e : NumError)
  | notFound (id : Int)
deriving DecidableEq, Repr

/-- How a command ends: it returns `nil`, it returns an error, or the process
is ended by `log.Fatalf`. -/
inductive Result (α : Type) where
  | ok (a : α)
  | error (e : Err)
  | fatal (e : Err)
deriving DecidableEq, Repr

/-- The function `readFile`.  The handle is open when a command runs (`main`
ends the process before the dispatch when the file cannot be opened), so the
test `dbFile == nil` is false; `Seek` does not fail.  The decoder reads from
offset 0; when it reports `io.EOF` it has read the file to its end, and the
encoder then writes the empty document at that offset. -/
def readFile (J : Json) (f : File) : Except Err Todos × File :=
  let f := f.Seek0
  match J.Decode (f.data.drop f.off) with
  | .value todos => (.ok todos, { f with off := min (J.Consumed f.data) f.data.length })
  | .eof =>
    let f := { f with off := f.data.length }
    let f := f.Write (J.Encode ⟨[]⟩)
    (.ok ⟨[]⟩, f)
  | .failure => (.error .decodeJSON, { f with off := min (J.Consumed f.data) f.data.length })

/-- The loop of `createTodo` that computes `maxId`. -/
def maxIdLoop (maxId : Nat) : List Todo → Nat
  | [] => maxId
  | todo :: rest =>
    if todo.ID ≥ maxId then maxIdLoop ((todo.ID + 1) % 256) rest else maxIdLoop maxId rest

/-- The function `createTodo`. -/
def createTodo (J : Json) (title : GoString) (f : File) : Result Unit × File :=
  match readFile J f with
  | (.error e, f) => (.fatal e, f)
  | (.ok todos, f) =>
    let maxId := maxIdLoop 1 todos.Todos
    let newTodo : Todo := { ID := maxId, Title := title, Completed := false }
    let f := f.Seek0
    let f := f.Truncate0
    let todos : Todos := { Todos := todos.Todos ++ [newTodo] }
    (.ok (), f.Write (J.Encode todos))

/-- The function `listTodos`. -/
def listTodos (J : Json) (f : File) : Result (List Todo) × File :=
  match readFile J f with
  | (.error e, f) => (.fatal e, f)
  | (.ok todos, f) => (.ok todos.Todos, f)

/-- The loop of `updateTodos` over the todos still to visit: `found` is the
flag of the source, the result is the flag and the list after the loop, or
the error of the `return` inside the loop. -/
def updateLoop (id : Int) (title : GoString) (completedStr : String) :
    Bool → List Todo → Except Err (Bool × List Todo)
  | found, [] => .ok (found, [])
  | found, todo :: rest =>
    if todo.ID = uint8 id then
      let todo1 : Todo := if title ≠ [] then { todo with Title := title } else todo
      if completedStr ≠ "" then
        match ParseBool completedStr with
        | .error e => .error (.invalidCompleted e)
        | .ok completedBool =>
          match updateLoop id title completedStr true rest with
          | .error e => .error e
          | .ok (fd, rest1) => .ok (fd, { todo1 with Completed := completedBool } :: rest1)
      else
        match updateLoop id title completedStr true rest with
        | .error e => .error e
        | .ok (fd, rest1) => .ok (fd, todo1 :: rest1)
    else
      match updateLoop id title completedStr found rest with
      | .error e => .error e
      | .ok (fd, rest1) => .ok (fd, todo :: rest1)

/-- The function `updateTodos`. -/
def updateTodos (J : Json) (idStr : String) (title : GoString) (completedStr : String)
    (f : File) : Result Unit × File :=
  match readFile J f with
  | (.error e, f) => (.fatal e, f)
  | (.ok todos, f) =>
    match ParseInt idStr with
    | .error e => (.error (.invalidID e), f)
    | .ok id =>
      match updateLoop id title completedStr false todos.Todos with
      | .error e => (.error e, f)
      | .ok (found, todos1) =>
        if !found then (.error (.notFound id), f)
        else
          let f := f.Seek0
          let f := f.Truncate0
          (.ok (), f.Write (J.Encode ⟨todos1⟩))

/-- The function `clearTodos`. -/
def clearTodos (J : Json) (f : File) : Result Unit × File :=
  let f := f.Seek0
  let f := f.Truncate0
  (.ok (), f.Write (J.Encode ⟨[]⟩))

/-! ## Runs of the program -/

/-- The commands `main` dispatches on, with the arguments it passes on;
`updateTodos` gets the empty string for an argument that is left out. -/
inductive Cmd where
  | createTodo (title : GoString)
  | listTodos
  | updateTodos (id : String) (title : GoString) (completed : String)
  | clearTodos
deriving DecidableEq, Repr

/-- One run of the program on the file content `disk`: `main` opens the file,
calls the function of the command, and the process ends; the result is the
content of the file afterwards. -/
def exec (J : Json) (c : Cmd) (disk : List Char) : List Char :=
  match c with
  | .createTodo title => (createTodo J title (openFile disk)).2.data
  | .listTodos => (listTodos J (openFile disk)).2.data
  | .updateTodos id title completed => (updateTodos J id title completed (openFile disk)).2.data
  | .clearTodos => (clearTodos J (openFile disk)).2.data

/-- A sequence of runs, one after the other, starting from `disk`. -/
def run (J : Json) (cs : List Cmd) (disk : List Char) : List Char :=
  cs.foldl (fun d c => exec J c d) disk

/-- What `listTodos` prints in a fresh run on the file content `disk`. -/
def listing (J : Json) (disk : List Char) : Result (List Todo) :=
  (listTodos J (openFile disk)).1

/-! ## Notions used in the statements -/

/-- The file content `d` is a document whose list of todos is `l`. -/
def Stored (J : Json) (d : List Char) (l : List Todo) : Prop :=
  J.Decode d = DecodeResult.value ⟨l⟩

instance (J : Json) (d : List Char) (l : List Todo) : Decidable (Stored J d l) := by
  unfold Stored; infer_instance

/-- The store holds the list `l`: the file is a document with that list, or
the file has zero bytes and the list is empty. -/
def Holds (J : Json) (d : List Char) (l : List Todo) : Prop :=
  Stored J d l ∨ (d = [] ∧ l = [])

instance (J : Json) (d : List Char) (l : List Todo) : Decidable (Holds J d l) := by
  unfold Holds; infer_instance

/-- Whether the character is a decimal digit. -/
def isDecimalDigit (c : Char) : Bool := decide (48 ≤ c.toNat ∧ c.toNat ≤ 57)

/-- The number a run of decimal digits denotes, continuing from `acc`. -/
def decimalDigits (acc : Nat) (cs : List Char) : Nat :=
  cs.foldl (fun a c => a * 10 + (c.toNat - 48)) acc

/-- The number an unsigned decimal numeral denotes: one digit or more. -/
def unsignedValue (cs : List Char) : Option Nat :=
  if cs ≠ [] ∧ cs.all isDecimalDigit then some (decimalDigits 0 cs) else none

/-- The integer with the given sign and magnitude, when there is a magnitude. -/
def withSign (neg : Bool) (v : Option Nat) : Option Int :=
  match v with
  | some n => some (if neg then -(Int.ofNat n) else Int.ofNat n)
  | none => none

/-- The integer a decimal numeral denotes: an optional sign `+` or `-`, then
one digit or more; `none` for a string that is no such numeral. -/
def decimalValue (s : String) : Option Int :=
  match s.data with
  | [] => none
  | c :: cs =>
    if c = Char.ofNat 43 then withSign false (unsignedValue cs)
    else if c = Char.ofNat 45 then withSign true (unsignedValue cs)
    else withSign false (unsignedValue (c :: cs))

/-- The edit `updateTodos` makes to a todo it matched: the title is replaced
when the title argument is not empty, the flag when a boolean was parsed. -/
def applyEdit (title : GoString) (completed : Option Bool) (t : Todo) : Todo :=
  let t1 : Todo := if title ≠ [] then { t with Title := title } else t
  match completed with
  | some b => { t1 with Completed := b }
  | none => t1

/-- The list after `updateTodos` edited the todos whose id is `k`. -/
def editAll (k : Nat) (title : GoString) (completed : Option Bool) (l : List Todo) : List Todo :=
  l.map fun t => if t.ID = k then applyEdit title completed t else t

/-- The boolean `updateTodos` takes from its completed argument: none when
the argument is empty or is not a boolean. -/
def flagArg (completedStr : String) : Option Bool :=
  if completedStr = "" then none
  else
    match ParseBool completedStr with
    | .ok b => some b
    | .error _ => none

/-- Some todo of the list has the id `k`. -/
def HasId (k : Nat) (l : List Todo) : Prop := ∃ t ∈ l, t.ID = k

instance (k : Nat) (l : List Todo) : Decidable (HasId k l) := by
  unfold HasId; infer_instance

/-- The todo `createTodo` appends to the list `l`. -/
def newTodo (title : GoString) (l : List Todo) : Todo :=
  { ID := maxIdLoop 1 l, Title := title, Completed := false }

/-- The list the store holds after a `createTodo` for each of the titles, in
order: every new todo is stored with its title coerced to UTF-8. -/
def createAll (titles : List GoString) (l : List Todo) : List Todo :=
  titles.foldl (fun l title => l ++ [coerceTodo (newTodo title l)]) l

/-- The loop of `createTodo` on the ids alone. -/
def maxIdOfIds (maxId : Nat) : List Nat → Nat
  | [] => maxId
  | id :: rest => if id ≥ maxId then maxIdOfIds ((id + 1) % 256) rest else maxIdOfIds maxId rest

/-- The ids in the list after `n` further calls of `createTodo`. -/
def idsAfter : Nat → List Nat → List Nat
  | 0, ids => ids
  | n + 1, ids => idsAfter n (ids ++ [maxIdOfIds 1 ids])

/-- The least number above every id of the list, zero for the empty list. -/
def boundOf (ids : List Nat) : Nat := ids.foldr (fun i a => max (i + 1) a) 0

/-- The largest id of a list, zero for the empty list. -/
def maxIdOf (l : List Todo) : Nat := l.foldr (fun t m => max t.ID m) 0

/-! ## A reference instance of the JSON library

`refJson` writes compact JSON text in the layout of `Encoder.Encode` for a
`Todos` value: one line, the fields in declaration order, a line feed at the
end.  A title is written rune by rune: the quote and the backslash are
escaped with a backslash, a control character is written as a `\u00XX`
escape, a byte that is not part of well-formed UTF-8 as the escape `\ufffd`,
as `encoding/json` does.  The decoder reads the
text the encoder writes, after optional leading white space; it is not a
general JSON reader.  All it is used for is to show that `Json.Lawful` can be
met and to evaluate statements on concrete files. -/

namespace Ref

/-- The double quote. -/
def dq : Char := Char.ofNat 34

/-- The backslash. -/
def bs : Char := Char.ofNat 92

/-- The decimal digit `d` as a character. -/
def digitChar (d : Nat) : Char := Char.ofNat (48 + d)

/-- The decimal text of `n`, most significant digit first. -/
def natText : Nat → Nat → List Char
  | 0, _ => []
  | fuel + 1, n =>
    if n < 10 then [digitChar n] else natText fuel (n / 10) ++ [digitChar (n % 10)]

/-- The decimal text of a number. -/
def encodeNat (n : Nat) : List Char := natText (n + 1) n

/-- The hexadecimal digit `d` as a character (lower case). -/
def hexChar (d : Nat) : Char := if d < 10 then Char.ofNat (48 + d) else Char.ofNat (87 + d)

/-- The text of one character inside a JSON string. -/
def escapeChar (c : Char) : List Char :=
  if c = dq then [bs, dq]
  else if c = bs then [bs, bs]
  else if c.toNat < 32 then
    [bs, Char.ofNat 117, Char.ofNat 48, Char.ofNat 48, hexChar (c.toNat / 16), hexChar (c.toNat % 16)]
  else [c]

/-- The text of one rune inside a JSON string: the escape `\ufffd` for
`RuneError` at an invalid byte. -/
def escapeRune : Option Char → List Char
  | some c => escapeChar c
  | none => [bs, Char.ofNat 117, Char.ofNat 102, Char.ofNat 102, Char.ofNat 102, Char.ofNat 100]

/-- The text of a JSON string. -/
def encodeString (s : GoString) : List Char :=
  dq :: ((runes s).flatMap escapeRune ++ [dq])

/-- The text of a JSON boolean. -/
def encodeBool (b : Bool) : List Char := if b then "true".data else "false".data

/-- The text before the id of a todo. -/
def openTodo : List Char := "\x7b\"id\":".data

/-- The text between the id and the title of a todo, after its comma. -/
def titleKey : List Char := "\"title\":".data

/-- The text between the title and the flag of a todo. -/
def completedKey : List Char := ",\"completed\":".data

/-- The closing brace. -/
def closeBrace : List Char := "\x7d".data

/-- The text before the elements of the array. -/
def openDoc : List Char := "\x7b\"Todos\":[".data

/-- The comma. -/
def comma : Char := Char.ofNat 44

/-- The closing bracket. -/
def closeBracket : Char := Char.ofNat 93

/-- The line feed. -/
def newline : Char := Char.ofNat 10

/-- The text of one todo. -/
def encodeTodo (t : Todo) : List Char :=
  openTodo ++ encodeNat t.ID ++ comma :: titleKey ++ encodeString t.Title
    ++ completedKey ++ encodeBool t.Completed ++ closeBrace

/-- The text of the elements of the array, separated by commas. -/
def encodeItems : List Todo → List Char
  | [] => []
  | [t] => encodeTodo t
  | t :: t1 :: ts => encodeTodo t ++ comma :: encodeItems (t1 :: ts)

/-- The text `Encoder.Encode` writes: the document and a newline. -/
def encode (t : Todos) : List Char :=
  openDoc ++ encodeItems t.Todos ++ closeBracket :: closeBrace ++ [newline]

/-- Reads the literal `lit` off the front of the input. -/
def expect : List Char → List Char → Option (List Char)
  | [], inp => some inp
  | _ :: _, [] => none
  | c :: cs, d :: ds => if c = d then expect cs ds else none

/-- The value of a run of decimal digits, continuing from `acc`. -/
def digitsVal (acc : Nat) (cs : List Char) : Nat :=
  cs.foldl (fun a c => a * 10 + (c.toNat - 48)) acc

/-- Whether the character is a decimal digit. -/
def isDigit (c : Char) : Bool := decide (48 ≤ c.toNat ∧ c.toNat ≤ 57)

/-- Reads a number for a `uint8` field: a nonempty run of digits whose value
is at most 255. -/
def readNat (inp : List Char) : Option (Nat × List Char) :=
  let ds := inp.takeWhile isDigit
  if ds = [] then none
  else if digitsVal 0 ds > 255 then none
  else some (digitsVal 0 ds, inp.dropWhile isDigit)

/-- The value of a hexadecimal digit. -/
def hexVal (c : Char) : Option Nat :=
  if 48 ≤ c.toNat ∧ c.toNat ≤ 57 then some (c.toNat - 48)
  else if 97 ≤ c.toNat ∧ c.toNat ≤ 102 then some (c.toNat - 87)
  else if 65 ≤ c.toNat ∧ c.toNat ≤ 70 then some (c.toNat - 55)
  else none

/-- The character of the escape with the four given hexadecimal digits;
surrogate code points are not read. -/
def hexEscape (a b c d : Char) : Option Char :=
  match hexVal a, hexVal b, hexVal c, hexVal d with
  | some x, some y, some z, some w =>
    let v := ((x * 16 + y) * 16 + z) * 16 + w
    if v < 55296 ∨ 57343 < v then some (Char.ofNat v) else none
  | _, _, _, _ => none

/-- Reads the rest of a JSON string, the opening quote already read. -/
def readChars : Nat → List Char → Option (List Char × List Char)
  | 0, _ => none
  | _ + 1, [] => none
  | fuel + 1, c :: rest =>
    if c = dq then some ([], rest)
    else if c = bs then
      match rest with
      | [] => none
      | e :: rest1 =>
        if e = dq ∨ e = bs then (readChars fuel rest1).map fun r => (e :: r.1, r.2)
        else if e = Char.ofNat 117 then
          match rest1 with
          | a :: b :: x :: y :: rest2 =>
            match hexEscape a b x y with
            | some ch => (readChars fuel rest2).map fun r => (ch :: r.1, r.2)
            | none => none
          | _ => none
        else none
    else if c.toNat < 32 then none
    else (readChars fuel rest).map fun r => (c :: r.1, r.2)

/-- Reads a JSON string into a Go string: the UTF-8 encoding of its
characters. -/
def readString (inp : List Char) : Option (GoString × List Char) :=
  match inp with
  | c :: rest =>
    if c = dq then (readChars (rest.length + 1) rest).map fun r => (encodeRunes r.1, r.2) else none
  | [] => none

/-- Reads a JSON boolean. -/
def readBool (inp : List Char) : Option (Bool × List Char) :=
  match expect "true".data inp with
  | some rest => some (true, rest)
  | none =>
    match expect "false".data inp with
    | some rest => some (false, rest)
    | none => none

/-- Reads one todo. -/
def readTodo (inp : List Char) : Option (Todo × List Char) :=
  match expect openTodo inp with
  | none => none
  | some r1 =>
    match readNat r1 with
    | none => none
    | some (id, r2) =>
      match expect (comma :: titleKey) r2 with
      | none => none
      | some r3 =>
        match readString r3 with
        | none => none
        | some (title, r4) =>
          match expect completedKey r4 with
          | none => none
          | some r5 =>
            match readBool r5 with
            | none => none
            | some (completed, r6) =>
              match expect closeBrace r6 with
              | none => none
              | some r7 => some ({ ID := id, Title := title, Completed := completed }, r7)

/-- Reads the elements of a nonempty array up to the closing bracket. -/
def readItems : Nat → List Char → Option (List Todo × List Char)
  | 0, _ => none
  | fuel + 1, inp =>
    match readTodo inp with
    | none => none
    | some (_, []) => none
    | some (t, c :: rest) =>
      if c = comma then (readItems fuel rest).map fun r => (t :: r.1, r.2)
      else if c = closeBracket then some ([t], rest)
      else none

/-- Reads the array of todos, the opening bracket already read. -/
def readArray (inp : List Char) : Option (List Todo × List Char) :=
  match inp with
  | [] => none
  | c :: rest => if c = closeBracket then some ([], rest) else readItems (inp.length) inp

/-- Whether the character is JSON white space. -/
def isSpace (c : Char) : Bool :=
  decide (c.toNat = 32 ∨ c.toNat = 9 ∨ c.toNat = 10 ∨ c.toNat = 13)

/-- Reads the first value of the stream: white space only is `io.EOF`, the
text of a document is its value, anything else an error. -/
def decode (inp : List Char) : DecodeResult :=
  match inp.dropWhile isSpace with
  | [] => .eof
  | body =>
    match expect openDoc body with
    | none => .failure
    | some r1 =>
      match readArray r1 with
      | none => .failure
      | some (l, r2) =>
        match expect closeBrace r2 with
        | none => .failure
        | some _ => .value ⟨l⟩

end Ref

/-- The reference instance of the JSON library; the decoder has read the
whole (small) file when it returns. -/
def refJson : Json :=
  { Encode := Ref.encode, Decode := Ref.decode, Consumed := List.length }

end LocalTodo

/-! ## Theorems -/

/-! ## unicode/utf8 -/

namespace LocalTodo

theorem byte_val (n : Nat) (h : n < 256) : (byte n).val = n := Nat.mod_eq_of_lt h

theorem char_range (c : Char) :
    c.toNat < 55296 ∨ (57343 < c.toNat ∧ c.toNat < 1114112) := c.valid

theorem decodeRune_one (p0 : Byte) (rest : GoString) (h0 : p0.val < 128) :
    decodeRune (p0 :: rest) = (some (Char.ofNat p0.val), 1) := by
  simp [decodeRune, h0]

theorem decodeRune_two (p0 b1 : Byte) (rest : GoString)
    (h0 : 194 ≤ p0.val ∧ p0.val < 224) (h1 : 128 ≤ b1.val ∧ b1.val ≤ 191) :
    decodeRune (p0 :: b1 :: rest) = (some (Char.ofNat (p0.val % 32 * 64 + b1.val % 64)), 2) := by
  unfold decodeRune
  simp only [List.length_cons]
  rw [if_neg (by omega), if_neg (by omega)]
  simp only [if_pos h0.2, if_neg (show ¬ p0.val = 224 by omega),
    if_neg (show ¬ p0.val = 240 by omega), if_neg (show ¬ p0.val = 237 by omega),
    if_neg (show ¬ p0.val = 244 by omega)]
  rw [if_neg (by omega), if_neg (by omega), if_pos (by omega)]

theorem decodeRune_three (p0 b1 b2 : Byte) (rest : GoString)
    (h0 : 224 ≤ p0.val ∧ p0.val < 240)
    (h1 : 128 ≤ b1.val ∧ b1.val ≤ 191 ∧ (p0.val = 224 → 160 ≤ b1.val) ∧
      (p0.val = 237 → b1.val ≤ 159))
    (h2 : 128 ≤ b2.val ∧ b2.val ≤ 191) :
    decodeRune (p0 :: b1 :: b2 :: rest)
      = (some (Char.ofNat (p0.val % 16 * 4096 + b1.val % 64 * 64 + b2.val % 64)), 3) := by
  unfold decodeRune
  simp only [List.length_cons]
  rw [if_neg (by omega), if_neg (by omega)]
  simp only [if_neg (show ¬ p0.val < 224 by omega), if_pos h0.2,
    if_neg (show ¬ p0.val = 240 by omega), if_neg (show ¬ p0.val = 244 by omega)]
  rw [if_neg (by omega)]
  have hlo : ¬ (b1.val < (if p0.val = 224 then 160 else 128) ∨
      (if p0.val = 237 then 159 else 191) < b1.val) := by
    by_cases e1 : p0.val = 224
    · have := h1.2.2.1 e1
      rw [if_pos e1, if_neg (by omega)]; omega
    · by_cases e2 : p0.val = 237
      · have := h1.2.2.2 e2
        rw [if_neg e1, if_pos e2]; omega
      · rw [if_neg e1, if_neg e2]; omega
  rw [if_neg hlo, if_neg (by omega), if_neg (by omega), if_pos (by omega)]

theorem decodeRune_four (p0 b1 b2 b3 : Byte) (rest : GoString)
    (h0 : 240 ≤ p0.val ∧ p0.val ≤ 244)
    (h1 : 128 ≤ b1.val ∧ b1.val ≤ 191 ∧ (p0.val = 240 → 144 ≤ b1.val) ∧
      (p0.val = 244 → b1.val ≤ 143))
    (h2 : 128 ≤ b2.val ∧ b2.val ≤ 191) (h3 : 128 ≤ b3.val ∧ b3.val ≤ 191) :
    decodeRune (p0 :: b1 :: b2 :: b3 :: rest)
      = (some (Char.ofNat (p0.val % 8 * 262144 + b1.val % 64 * 4096
          + b2.val % 64 * 64 + b3.val % 64)), 4) := by
  unfold decodeRune
  simp only [List.length_cons]
  rw [if_neg (by omega), if_neg (by omega)]
  simp only [if_neg (show ¬ p0.val < 224 by omega), if_neg (show ¬ p0.val < 240 by omega),
    if_neg (show ¬ p0.val = 224 by omega), if_neg (show ¬ p0.val = 237 by omega)]
  rw [if_neg (by omega)]
  have hlo : ¬ (b1.val < (if p0.val = 240 then 144 else 128) ∨
      (if p0.val = 244 then 143 else 191) < b1.val) := by
    by_cases e1 : p0.val = 240
    · have := h1.2.2.1 e1
      rw [if_pos e1, if_neg (by omega)]; omega
    · by_cases e2 : p0.val = 244
      · have := h1.2.2.2 e2
        rw [if_neg e1, if_pos e2]; omega
      · rw [if_neg e1, if_neg e2]; omega
  rw [if_neg hlo, if_neg (by omega), if_neg (by omega), if_neg (by omega), if_neg (by omega)]

theorem decodeRune_encodeRune (c : Char) (rest : GoString) :
    decodeRune (encodeRune c ++ rest) = (some c, (encodeRune c).length) := by
  have hv := char_range c
  have hc : Char.ofNat c.toNat = c := Char.ofNat_toNat c
  unfold encodeRune
  by_cases h1 : c.toNat < 128
  · have e0 : (byte c.toNat).val = c.toNat := byte_val _ (by omega)
    rw [if_pos h1]
    show decodeRune (byte c.toNat :: rest) = _
    rw [decodeRune_one _ _ (by omega), e0, hc]
    rfl
  · rw [if_neg h1]
    by_cases h2 : c.toNat < 2048
    · have e0 : (byte (192 + c.toNat / 64)).val = 192 + c.toNat / 64 := byte_val _ (by omega)
      have e1 : (byte (128 + c.toNat % 64)).val = 128 + c.toNat % 64 := byte_val _ (by omega)
      rw [if_pos h2]
      show decodeRune (byte (192 + c.toNat / 64) :: byte (128 + c.toNat % 64) :: rest) = _
      rw [decodeRune_two _ _ _ (by omega) (by omega), e0, e1]
      have ev : (192 + c.toNat / 64) % 32 * 64 + (128 + c.toNat % 64) % 64 = c.toNat := by omega
      rw [ev, hc]
      rfl
    · rw [if_neg h2]
      by_cases h3 : c.toNat < 65536
      · have e0 : (byte (224 + c.toNat / 4096)).val = 224 + c.toNat / 4096 :=
          byte_val _ (by omega)
        have e1 : (byte (128 + c.toNat / 64 % 64)).val = 128 + c.toNat / 64 % 64 :=
          byte_val _ (by omega)
        have e2 : (byte (128 + c.toNat % 64)).val = 128 + c.toNat % 64 := byte_val _ (by omega)
        rw [if_pos h3]
        show decodeRune (byte (224 + c.toNat / 4096) :: byte (128 + c.toNat / 64 % 64)
          :: byte (128 + c.toNat % 64) :: rest) = _
        rw [decodeRune_three _ _ _ _ (by omega) (by omega) (by omega), e0, e1, e2]
        have ev : (224 + c.toNat / 4096) % 16 * 4096 + (128 + c.toNat / 64 % 64) % 64 * 64
            + (128 + c.toNat % 64) % 64 = c.toNat := by omega
        rw [ev, hc]
        rfl
      · have e0 : (byte (240 + c.toNat / 262144)).val = 240 + c.toNat / 262144 :=
          byte_val _ (by omega)
        have e1 : (byte (128 + c.toNat / 4096 % 64)).val = 128 + c.toNat / 4096 % 64 :=
          byte_val _ (by omega)
        have e2 : (byte (128 + c.toNat / 64 % 64)).val = 128 + c.toNat / 64 % 64 :=
          byte_val _ (by omega)
        have e3 : (byte (128 + c.toNat % 64)).val = 128 + c.toNat % 64 := byte_val _ (by omega)
        rw [if_neg h3]
        show decodeRune (byte (240 + c.toNat / 262144) :: byte (128 + c.toNat / 4096 % 64)
          :: byte (128 + c.toNat / 64 % 64) :: byte (128 + c.toNat % 64) :: rest) = _
        rw [decodeRune_four _ _ _ _ _ (by omega) (by omega) (by omega) (by omega), e0, e1, e2, e3]
        have ev : (240 + c.toNat / 262144) % 8 * 262144 + (128 + c.toNat / 4096 % 64) % 64 * 4096
            + (128 + c.toNat / 64 % 64) % 64 * 64 + (128 + c.toNat % 64) % 64 = c.toNat := by
          omega
        rw [ev, hc]
        rfl


theorem encodeRune_ne_nil (c : Char) : encodeRune c ≠ [] := by
  unfold encodeRune
  split_ifs <;> simp

theorem runesFuel_encodeRunes (cs : List Char) :
    ∀ fuel, cs.length ≤ fuel → runesFuel fuel (encodeRunes cs) = cs.map some := by
  induction cs with
  | nil =>
    intro fuel _
    cases fuel <;> rfl
  | cons c cs ih =>
    intro fuel hf
    cases fuel with
    | zero => simp at hf
    | succ k =>
      have hne := encodeRune_ne_nil c
      have hd := decodeRune_encodeRune c (encodeRunes cs)
      have he : encodeRunes (c :: cs) = encodeRune c ++ encodeRunes cs := by
        simp [encodeRunes]
      rw [he]
      cases hb : encodeRune c ++ encodeRunes cs with
      | nil => simp [hne] at hb
      | cons b bs =>
        rw [hb] at hd
        simp only [runesFuel, hd, List.map_cons]
        rw [← hb, List.drop_left, ih k (by simpa using hf)]

theorem length_le_encodeRunes (cs : List Char) : cs.length ≤ (encodeRunes cs).length := by
  induction cs with
  | nil => simp [encodeRunes]
  | cons c cs ih =>
    have hne := encodeRune_ne_nil c
    have : 0 < (encodeRune c).length := List.length_pos.2 hne
    simp only [encodeRunes, List.flatMap_cons, List.length_append, List.length_cons] at ih ⊢
    omega

theorem runes_encodeRunes (cs : List Char) : runes (encodeRunes cs) = cs.map some :=
  runesFuel_encodeRunes cs _ (length_le_encodeRunes cs)

theorem validUTF8_encodeRunes (cs : List Char) : ValidUTF8 (encodeRunes cs) := by
  unfold ValidUTF8 coerceUTF8
  rw [runes_encodeRunes, List.map_map]
  congr 1
  induction cs with
  | nil => rfl
  | cons c cs ih => simp [runeOrError, ih]

theorem coerceUTF8_eq_nil (s : GoString) : coerceUTF8 s = [] ↔ s = [] := by
  constructor
  · intro h
    cases s with
    | nil => rfl
    | cons b bs =>
      exfalso
      have hne := encodeRune_ne_nil (runeOrError (decodeRune (b :: bs)).1)
      simp [coerceUTF8, runes, runesFuel, encodeRunes, hne] at h
  · intro h; subst h; rfl


theorem map_coerceTodo_of_valid (l : List Todo) (h : ∀ t ∈ l, ValidUTF8 t.Title) :
    l.map coerceTodo = l := by
  conv_rhs => rw [← List.map_id l]
  apply List.map_congr_left
  intro t ht
  have hv : coerceUTF8 t.Title = t.Title := h t ht
  simp only [coerceTodo, hv, id]

theorem inRange_map_coerceTodo (l : List Todo) (h : InRange l) : InRange (l.map coerceTodo) := by
  intro t ht
  obtain ⟨t0, ht0, rfl⟩ := List.mem_map.1 ht
  exact h t0 ht0

end LocalTodo

/-! ## The reference instance meets the contract -/

namespace LocalTodo.Ref

theorem expect_append (lit rest : List Char) : expect lit (lit ++ rest) = some rest := by
  induction lit with
  | nil => simp [expect]
  | cons c cs ih => simp [expect, ih]

theorem digitChar_toNat_all : ∀ d < 10, (digitChar d).toNat = 48 + d := by decide

theorem digitChar_toNat (d : Nat) (h : d < 10) : (digitChar d).toNat = 48 + d :=
  digitChar_toNat_all d h

theorem digitsVal_append (acc : Nat) (xs ys : List Char) :
    digitsVal acc (xs ++ ys) = digitsVal (digitsVal acc xs) ys := by
  simp [digitsVal]

theorem isDigit_digitChar (d : Nat) (h : d < 10) : isDigit (digitChar d) = true := by
  simp [isDigit, digitChar_toNat d h]; omega

theorem natText_spec : ∀ fuel n, n < fuel →
    digitsVal 0 (natText fuel n) = n ∧ natText fuel n ≠ [] ∧
      ∀ c ∈ natText fuel n, isDigit c = true := by
  intro fuel
  induction fuel with
  | zero => intro n h; omega
  | succ k ih =>
    intro n h
    unfold natText
    by_cases h10 : n < 10
    · simp [h10, digitsVal, digitChar_toNat n h10, isDigit_digitChar n h10]
    · have hk : n / 10 < k := by omega
      obtain ⟨h1, h2, h3⟩ := ih (n / 10) hk
      have hm : n % 10 < 10 := Nat.mod_lt _ (by decide)
      simp only [h10, if_false, digitsVal_append, h1]
      refine ⟨?_, by simp, ?_⟩
      · simp [digitsVal, digitChar_toNat _ hm]; omega
      · intro c hc
        rcases List.mem_append.1 hc with hc | hc
        · exact h3 c hc
        · simp at hc; subst hc; exact isDigit_digitChar _ hm

theorem takeWhile_run (p : Char → Bool) (xs : List Char) (hx : ∀ c ∈ xs, p c = true)
    (c : Char) (rest : List Char) (hc : p c = false) :
    (xs ++ c :: rest).takeWhile p = xs ∧ (xs ++ c :: rest).dropWhile p = c :: rest := by
  induction xs with
  | nil => simp [List.takeWhile, List.dropWhile, hc]
  | cons a as ih =>
    have ha : p a = true := hx a (by simp)
    have := ih (fun c hc => hx c (by simp [hc]))
    simp [List.takeWhile, List.dropWhile, ha, this]

theorem readNat_encodeNat (n : Nat) (h : n < 256) (c : Char) (rest : List Char)
    (hc : isDigit c = false) : readNat (encodeNat n ++ c :: rest) = some (n, c :: rest) := by
  obtain ⟨h1, h2, h3⟩ := natText_spec (n + 1) n (by omega)
  obtain ⟨t1, t2⟩ := takeWhile_run isDigit (encodeNat n) h3 c rest hc
  unfold readNat
  simp only [t1, t2]
  unfold encodeNat
  simp [h2, h1]; omega


theorem hexEscape_control_all : ∀ n < 32,
    hexEscape (Char.ofNat 48) (Char.ofNat 48) (hexChar (n / 16)) (hexChar (n % 16))
      = some (Char.ofNat n) := by decide

theorem hexEscape_control (c : Char) (h : c.toNat < 32) :
    hexEscape (Char.ofNat 48) (Char.ofNat 48) (hexChar (c.toNat / 16)) (hexChar (c.toNat % 16))
      = some c := by
  rw [hexEscape_control_all _ h, Char.ofNat_toNat]

theorem readChars_step (r : Option Char) (k : Nat) (tail : List Char) :
    readChars (k + 1) (escapeRune r ++ tail)
      = (readChars k tail).map fun p => (runeOrError r :: p.1, p.2) := by
  have hu1 : ¬ (Char.ofNat 117 = dq ∨ Char.ofNat 117 = bs) := by decide
  have hbd : ¬ bs = dq := by decide
  cases r with
  | none =>
    have hx : hexEscape (Char.ofNat 102) (Char.ofNat 102) (Char.ofNat 102) (Char.ofNat 100)
        = some (Char.ofNat 65533) := by decide
    simp [escapeRune, readChars, hbd, hu1, hx, runeOrError]
  | some c =>
    show readChars (k + 1) (escapeChar c ++ tail) = _
    by_cases h1 : c = dq
    · subst h1
      have he : escapeChar dq = [bs, dq] := by decide
      rw [he]
      simp [readChars, hbd, runeOrError]
    · by_cases h2 : c = bs
      · subst h2
        have he : escapeChar bs = [bs, bs] := by decide
        rw [he]
        simp [readChars, hbd, runeOrError]
      · by_cases h3 : c.toNat < 32
        · have he : escapeChar c = [bs, Char.ofNat 117, Char.ofNat 48, Char.ofNat 48,
              hexChar (c.toNat / 16), hexChar (c.toNat % 16)] := by
            simp [escapeChar, h1, h2, h3]
          rw [he]
          simp [readChars, hbd, hu1, hexEscape_control c h3, runeOrError]
        · have he : escapeChar c = [c] := by simp [escapeChar, h1, h2, h3]
          rw [he]
          simp [readChars, h1, h2, h3, runeOrError]

theorem readChars_escaped (rs : List (Option Char)) : ∀ (fuel : Nat) (rest : List Char),
    rs.length < fuel →
      readChars fuel (rs.flatMap escapeRune ++ dq :: rest) = some (rs.map runeOrError, rest) := by
  induction rs with
  | nil =>
    intro fuel rest h
    cases fuel with
    | zero => simp at h
    | succ k => simp [readChars]
  | cons r rs ih =>
    intro fuel rest h
    cases fuel with
    | zero => simp at h
    | succ k =>
      simp only [List.flatMap_cons, List.append_assoc]
      rw [readChars_step, ih k rest (by simpa using h)]
      rfl

theorem escapeRune_ne_nil (r : Option Char) : escapeRune r ≠ [] := by
  cases r with
  | none => simp [escapeRune]
  | some c =>
    show escapeChar c ≠ []
    unfold escapeChar
    split_ifs <;> simp

theorem length_le_escaped (rs : List (Option Char)) :
    rs.length ≤ (rs.flatMap escapeRune).length := by
  induction rs with
  | nil => simp
  | cons r rs ih =>
    have : 0 < (escapeRune r).length := List.length_pos.2 (escapeRune_ne_nil r)
    simp only [List.flatMap_cons, List.length_append, List.length_cons] at ih ⊢
    omega

theorem readString_encodeString (s : GoString) (rest : List Char) :
    readString (encodeString s ++ rest) = some (coerceUTF8 s, rest) := by
  have hl := length_le_escaped (runes s)
  have h := readChars_escaped (runes s)
    (((runes s).flatMap escapeRune ++ dq :: rest).length + 1) rest
    (by rw [List.length_append]; omega)
  show readString (dq :: ((runes s).flatMap escapeRune ++ [dq]) ++ rest) = some (coerceUTF8 s, rest)
  rw [List.cons_append, List.append_assoc]
  show (if dq = dq then (readChars (((runes s).flatMap escapeRune ++ dq :: rest).length + 1)
      ((runes s).flatMap escapeRune ++ dq :: rest)).map (fun r => (encodeRunes r.1, r.2)) else none)
      = some (coerceUTF8 s, rest)
  rw [if_pos rfl, h]
  rfl

theorem readString_valid (inp : List Char) (s : GoString) (r : List Char)
    (h : readString inp = some (s, r)) : ValidUTF8 s := by
  unfold readString at h
  split at h
  · split at h
    · simp only [Option.map_eq_some', Prod.mk.injEq] at h
      obtain ⟨p, _, hp, _⟩ := h
      rw [← hp]
      exact validUTF8_encodeRunes _
    · simp at h
  · simp at h

theorem readBool_encodeBool (b : Bool) (rest : List Char) :
    readBool (encodeBool b ++ rest) = some (b, rest) := by
  cases b with
  | true =>
    show readBool ("true".data ++ rest) = _
    unfold readBool
    rw [expect_append]
  | false =>
    show readBool ("false".data ++ rest) = _
    unfold readBool
    rw [expect_append]
    have : expect "true".data ("false".data ++ rest) = none := by
      simp [expect]
    rw [this]

theorem readTodo_encodeTodo (t : Todo) (h : t.ID < 256) (rest : List Char) :
    readTodo (encodeTodo t ++ rest) = some (coerceTodo t, rest) := by
  unfold readTodo encodeTodo
  simp only [List.append_assoc, List.cons_append]
  rw [expect_append]
  simp only []
  rw [readNat_encodeNat t.ID h comma _ (by decide)]
  simp only []
  rw [← List.cons_append, expect_append]
  simp only []
  rw [readString_encodeString]
  simp only []
  rw [expect_append]
  simp only []
  rw [readBool_encodeBool]
  simp only []
  rw [expect_append]
  rfl

theorem readNat_range (inp : List Char) (n : Nat) (r : List Char)
    (h : readNat inp = some (n, r)) : n < 256 := by
  unfold readNat at h
  simp only at h
  split at h
  · simp at h
  · split at h
    · simp at h
    · simp only [Option.some.injEq, Prod.mk.injEq] at h
      omega

theorem readTodo_sound (inp : List Char) (t : Todo) (r : List Char)
    (h : readTodo inp = some (t, r)) : t.ID < 256 ∧ ValidUTF8 t.Title := by
  unfold readTodo at h
  repeat' split at h
  all_goals first | (simp at h; done) | skip
  simp only [Option.some.injEq, Prod.mk.injEq] at h
  obtain ⟨h, _⟩ := h
  subst h
  exact ⟨readNat_range _ _ _ (by assumption), readString_valid _ _ _ (by assumption)⟩


theorem encodeTodo_head (t : Todo) :
    ∃ tl, encodeTodo t = Char.ofNat 123 :: tl :=
  ⟨_, rfl⟩

theorem length_le_encodeItems : ∀ l : List Todo, l.length ≤ (encodeItems l).length
  | [] => by simp
  | [t] => by
    obtain ⟨tl, h⟩ := encodeTodo_head t
    simp [encodeItems, h]
  | t :: t1 :: ts => by
    have ih := length_le_encodeItems (t1 :: ts)
    simp only [encodeItems, List.length_append, List.length_cons] at ih ⊢
    omega

theorem readItems_encodeItems : ∀ (l : List Todo) (t : Todo) (fuel : Nat) (rest : List Char),
    InRange (t :: l) → l.length < fuel →
      readItems fuel (encodeItems (t :: l) ++ closeBracket :: rest)
        = some ((t :: l).map coerceTodo, rest)
  | [], t, fuel, rest, hr, hf => by
    cases fuel with
    | zero => omega
    | succ k =>
      have ht : t.ID < 256 := hr t (by simp)
      have hc : ¬ closeBracket = comma := by decide
      simp [encodeItems, readItems, readTodo_encodeTodo t ht, hc]
  | t1 :: ts, t, fuel, rest, hr, hf => by
    cases fuel with
    | zero => omega
    | succ k =>
      have ht : t.ID < 256 := hr t (by simp)
      have hr1 : InRange (t1 :: ts) := fun x hx => hr x (List.mem_cons_of_mem _ hx)
      have ih := readItems_encodeItems ts t1 k rest hr1 (by simp at hf; omega)
      simp only [encodeItems, List.append_assoc, List.cons_append] at ih ⊢
      simp [readItems, readTodo_encodeTodo t ht, ih]

theorem readArray_encodeItems (l : List Todo) (hr : InRange l) (rest : List Char) :
    readArray (encodeItems l ++ closeBracket :: rest) = some (l.map coerceTodo, rest) := by
  cases l with
  | nil => simp [encodeItems, readArray]
  | cons t ts =>
    have hl := length_le_encodeItems (t :: ts)
    have h := readItems_encodeItems ts t
      (encodeItems (t :: ts) ++ closeBracket :: rest).length rest hr
      (by simp only [List.length_append, List.length_cons] at hl ⊢; omega)
    obtain ⟨tl, htl⟩ : ∃ tl, encodeItems (t :: ts) = Char.ofNat 123 :: tl := by
      cases ts with
      | nil => exact encodeTodo_head t
      | cons t1 ts1 =>
        obtain ⟨tl, h⟩ := encodeTodo_head t
        exact ⟨tl ++ comma :: encodeItems (t1 :: ts1), by simp [encodeItems, h]⟩
    rw [htl] at h ⊢
    have hc : ¬ Char.ofNat 123 = closeBracket := by decide
    simp only [readArray, List.cons_append, hc, if_false]
    exact h

theorem decode_encode_ref (l : List Todo) (hr : InRange l) :
    decode (encode ⟨l⟩) = .value ⟨l.map coerceTodo⟩ := by
  have hd : ∃ tl, encode ⟨l⟩ = Char.ofNat 123 :: tl := ⟨_, rfl⟩
  obtain ⟨tl, htl⟩ := hd
  have hs : isSpace (Char.ofNat 123) = false := by decide
  have hw : (encode ⟨l⟩).dropWhile isSpace = encode ⟨l⟩ := by
    rw [htl]; simp [List.dropWhile, hs]
  unfold decode
  rw [hw]
  have he : expect openDoc (encode ⟨l⟩) = some (encodeItems l ++ closeBracket :: (closeBrace ++ [newline])) := by
    unfold encode
    simp only [List.append_assoc, List.cons_append]
    exact expect_append _ _
  rw [htl] at he
  rw [htl]
  simp only [he, readArray_encodeItems l hr, expect_append]

theorem readItems_sound : ∀ (fuel : Nat) (inp : List Char) (l : List Todo) (r : List Char),
    readItems fuel inp = some (l, r) → ∀ x ∈ l, x.ID < 256 ∧ ValidUTF8 x.Title := by
  intro fuel
  induction fuel with
  | zero => intro inp l r h; simp [readItems] at h
  | succ k ih =>
    intro inp l r h
    unfold readItems at h
    split at h
    · simp at h
    · simp at h
    · rename_i t c rest ht
      have hid := readTodo_sound _ _ _ ht
      split at h
      · simp only [Option.map_eq_some', Prod.mk.injEq] at h
        obtain ⟨⟨l1, r1⟩, h1, h2, _⟩ := h
        have := ih _ _ _ h1
        subst h2
        intro x hx
        rcases List.mem_cons.1 hx with hx | hx
        · subst hx; exact hid
        · exact this x hx
      · split at h
        · simp only [Option.some.injEq, Prod.mk.injEq] at h
          obtain ⟨h, _⟩ := h
          subst h
          intro x hx
          simp at hx; subst hx; exact hid
        · simp at h

theorem decode_sound (d : List Char) (l : List Todo) (h : decode d = .value ⟨l⟩) :
    ∀ x ∈ l, x.ID < 256 ∧ ValidUTF8 x.Title := by
  unfold decode at h
  split at h
  · simp at h
  · split at h
    · simp at h
    · split at h
      · simp at h
      · rename_i r1 _ l1 r2 hread
        split at h
        · simp at h
        · simp only [DecodeResult.value.injEq, Todos.mk.injEq] at h
          subst h
          unfold readArray at hread
          split at hread
          · simp at hread
          · split at hread
            · simp only [Option.some.injEq, Prod.mk.injEq] at hread
              obtain ⟨h, _⟩ := hread
              subst h
              intro x hx; simp at hx
            · exact readItems_sound _ _ _ _ hread

end LocalTodo.Ref

namespace LocalTodo

theorem refJson_lawful : refJson.Lawful where
  decode_nil := rfl
  decode_encode := Ref.decode_encode_ref
  decode_range := fun d l h x hx => (Ref.decode_sound d l h x hx).1
  decode_valid := fun d l h x hx => (Ref.decode_sound d l h x hx).2

/-! ## The file handle -/

theorem write_fresh (f : File) (b : List Char) :
    (f.Seek0.Truncate0).Write b = ⟨b, b.length⟩ := by
  simp [File.Seek0, File.Truncate0, File.Write]

theorem readFile_stored (J : Json) (d : List Char) (l : List Todo) (off : Nat)
    (h : Stored J d l) :
    readFile J ⟨d, off⟩ = (.ok ⟨l⟩, ⟨d, min (J.Consumed d) d.length⟩) := by
  unfold Stored at h
  simp [readFile, File.Seek0, h]

theorem readFile_zero (J : Json) (hJ : J.Lawful) (off : Nat) :
    readFile J ⟨[], off⟩ = (.ok ⟨[]⟩, ⟨J.Encode ⟨[]⟩, (J.Encode ⟨[]⟩).length⟩) := by
  simp [readFile, File.Seek0, hJ.decode_nil, File.Write]

theorem stored_encode_coerced (J : Json) (hJ : J.Lawful) (l : List Todo) (hl : InRange l) :
    Stored J (J.Encode ⟨l⟩) (l.map coerceTodo) := hJ.decode_encode l hl

theorem stored_encode (J : Json) (hJ : J.Lawful) (l : List Todo) (hl : InRange l)
    (hv : ∀ t ∈ l, ValidUTF8 t.Title) : Stored J (J.Encode ⟨l⟩) l := by
  have := stored_encode_coerced J hJ l hl
  rwa [map_coerceTodo_of_valid l hv] at this

theorem stored_encode_nil (J : Json) (hJ : J.Lawful) : Stored J (J.Encode ⟨[]⟩) [] :=
  stored_encode J hJ [] (by intro t ht; simp at ht) (by intro t ht; simp at ht)

theorem stored_inj (J : Json) (d : List Char) (l l1 : List Todo)
    (h : Stored J d l) (h1 : Stored J d l1) : l = l1 := by
  unfold Stored at h h1
  rw [h] at h1
  simpa using h1

theorem encode_ne_nil (J : Json) (hJ : J.Lawful) (l : List Todo) (hl : InRange l) :
    J.Encode ⟨l⟩ ≠ [] := by
  intro h
  have := hJ.decode_encode l hl
  rw [h, hJ.decode_nil] at this
  cases this

theorem holds_range (J : Json) (hJ : J.Lawful) (d : List Char) (l : List Todo)
    (h : Holds J d l) : InRange l := by
  rcases h with h | ⟨_, h⟩
  · exact hJ.decode_range d l h
  · subst h; intro t ht; simp at ht

theorem holds_valid (J : Json) (hJ : J.Lawful) (d : List Char) (l : List Todo)
    (h : Holds J d l) : ∀ t ∈ l, ValidUTF8 t.Title := by
  rcases h with h | ⟨_, h⟩
  · exact hJ.decode_valid d l h
  · subst h; intro t ht; simp at ht

/-! ## createTodo -/

theorem maxIdLoop_lt (l : List Todo) : ∀ m, m < 256 → maxIdLoop m l < 256 := by
  induction l with
  | nil => intro m h; simpa [maxIdLoop] using h
  | cons t ts ih =>
    intro m h
    unfold maxIdLoop
    split
    · exact ih _ (Nat.mod_lt _ (by decide))
    · exact ih _ h

theorem inRange_append_new (l : List Todo) (hl : InRange l) (title : GoString) :
    InRange (l ++ [newTodo title l]) := by
  intro t ht
  rcases List.mem_append.1 ht with ht | ht
  · exact hl t ht
  · simp at ht; subst ht; exact maxIdLoop_lt l 1 (by decide)

theorem createTodo_holds (J : Json) (hJ : J.Lawful) (d : List Char) (l : List Todo)
    (h : Holds J d l) (title : GoString) (off : Nat) :
    createTodo J title ⟨d, off⟩ =
      (.ok (), ⟨J.Encode ⟨l ++ [newTodo title l]⟩, (J.Encode ⟨l ++ [newTodo title l]⟩).length⟩) := by
  rcases h with h | ⟨hd, hl⟩
  · simp [createTodo, readFile_stored J d l off h, write_fresh, newTodo]
  · subst hd; subst hl
    simp [createTodo, readFile_zero J hJ off, write_fresh, newTodo]

theorem listTodos_stored (J : Json) (d : List Char) (l : List Todo) (off : Nat)
    (h : Stored J d l) :
    listTodos J ⟨d, off⟩ = (.ok l, ⟨d, min (J.Consumed d) d.length⟩) := by
  simp [listTodos, readFile_stored J d l off h]

theorem stored_after_create (J : Json) (hJ : J.Lawful) (d : List Char) (l : List Todo)
    (h : Holds J d l) (title : GoString) :
    Stored J (J.Encode ⟨l ++ [newTodo title l]⟩) (l ++ [coerceTodo (newTodo title l)]) := by
  have hr := inRange_append_new l (holds_range J hJ d l h) title
  have := stored_encode_coerced J hJ _ hr
  rwa [List.map_append, map_coerceTodo_of_valid l (holds_valid J hJ d l h)] at this

theorem exec_create_holds (J : Json) (hJ : J.Lawful) (d : List Char) (l : List Todo)
    (h : Holds J d l) (title : GoString) :
    Stored J (exec J (.createTodo title) d) (l ++ [coerceTodo (newTodo title l)]) := by
  simp only [exec, openFile, createTodo_holds J hJ d l h title 0]
  exact stored_after_create J hJ d l h title

theorem run_creates (J : Json) (hJ : J.Lawful) (titles : List GoString) :
    ∀ (d : List Char) (l : List Todo), Holds J d l →
      Holds J (run J (titles.map Cmd.createTodo) d) (createAll titles l) := by
  induction titles with
  | nil => intro d l h; simpa [run, createAll] using h
  | cons t ts ih =>
    intro d l h
    have h1 := exec_create_holds J hJ d l h t
    have := ih _ _ (Or.inl h1)
    simpa [run, createAll] using this

theorem maxIdLoop_ids (l : List Todo) : ∀ m, maxIdLoop m l = maxIdOfIds m (l.map Todo.ID) := by
  induction l with
  | nil => intro m; rfl
  | cons t ts ih =>
    intro m
    simp only [maxIdLoop, List.map_cons, maxIdOfIds, ih]

theorem createAll_ids (titles : List GoString) :
    ∀ l : List Todo, (createAll titles l).map Todo.ID = idsAfter titles.length (l.map Todo.ID) := by
  induction titles with
  | nil => intro l; rfl
  | cons t ts ih =>
    intro l
    have := ih (l ++ [coerceTodo (newTodo t l)])
    simp only [createAll, List.foldl_cons, List.length_cons, idsAfter] at this ⊢
    rw [this]
    simp [newTodo, coerceTodo, maxIdLoop_ids]

theorem listing_holds (J : Json) (hJ : J.Lawful) (d : List Char) (l : List Todo)
    (h : Holds J d l) : listing J d = .ok l := by
  rcases h with h | ⟨hd, hl⟩
  · simp [listing, openFile, listTodos_stored J d l 0 h]
  · subst hd; subst hl
    simp [listing, openFile, listTodos, readFile_zero J hJ 0]


/-! ## strconv -/

theorem decimalDigits_ge (cs : List Char) : ∀ n, n ≤ decimalDigits n cs := by
  induction cs with
  | nil => intro n; simp [decimalDigits]
  | cons c cs ih =>
    intro n
    have := ih (n * 10 + (c.toNat - 48))
    simp only [decimalDigits, List.foldl_cons] at this ⊢
    omega

theorem parseUintLoop_digits (cs : List Char) (hcs : cs.all isDecimalDigit = true) :
    ∀ n, n ≤ 255 → parseUintLoop n cs =
      if decimalDigits n cs ≤ 255 then .ok (decimalDigits n cs) else .error .outOfRange := by
  induction cs with
  | nil => intro n hn; simp [parseUintLoop, decimalDigits, hn]
  | cons c cs ih =>
    intro n hn
    simp only [List.all_cons, Bool.and_eq_true] at hcs
    have hc : 48 ≤ c.toNat ∧ c.toNat ≤ 57 := by simpa [isDecimalDigit] using hcs.1
    have hge := decimalDigits_ge cs (n * 10 + (c.toNat - 48))
    unfold parseUintLoop
    simp only [hc, and_self, if_true]
    by_cases hbig : n * 10 + (c.toNat - 48) > 255
    · have : ¬ decimalDigits n (c :: cs) ≤ 255 := by
        simp only [decimalDigits, List.foldl_cons] at hge ⊢
        omega
      simp [hbig, this]
    · have hle : n * 10 + (c.toNat - 48) ≤ 255 := by omega
      simp only [hbig, if_false]
      rw [ih hcs.2 _ hle]
      rfl

theorem parseUint_unsigned (cs : List Char) (n : Nat) (h : unsignedValue cs = some n) :
    ParseUint cs = if n ≤ 255 then .ok n else .error .outOfRange := by
  unfold unsignedValue at h
  split at h
  · rename_i hc
    simp only [Option.some.injEq] at h
    subst h
    simp [ParseUint, hc.1, parseUintLoop_digits cs hc.2 0 (by omega)]
  · simp at h

theorem parseIntSigned_unsigned (neg : Bool) (cs : List Char) (n : Nat)
    (h : unsignedValue cs = some n) :
    parseIntSigned neg cs =
      if (if neg then n ≤ 128 else n ≤ 127) then .ok (if neg then -(n : Int) else (n : Int))
      else .error .outOfRange := by
  unfold parseIntSigned
  rw [parseUint_unsigned cs n h]
  by_cases h255 : n ≤ 255
  · simp only [h255, if_true]
    cases neg
    · by_cases h1 : n ≤ 127
      · have : ¬ n ≥ 128 := by omega
        simp [h1, this]
      · have : n ≥ 128 := by omega
        simp [h1, this]
    · by_cases h1 : n ≤ 128
      · have : ¬ n > 128 := by omega
        simp [h1, this]
      · have : n > 128 := by omega
        simp [h1, this]
  · have h2 : ¬ n ≤ 128 := by omega
    have h3 : ¬ n ≤ 127 := by omega
    cases neg <;> simp [h255, h2, h3]

theorem withSign_some (neg : Bool) (v : Option Nat) (n : Int) (h : withSign neg v = some n) :
    ∃ m, v = some m ∧ n = if neg then -(m : Int) else (m : Int) := by
  cases v with
  | none => simp [withSign] at h
  | some m =>
    refine ⟨m, rfl, ?_⟩
    simp only [withSign, Option.some.injEq] at h
    rw [← h]; rfl

theorem parseIntSigned_withSign (neg : Bool) (cs : List Char) (n : Int)
    (h : withSign neg (unsignedValue cs) = some n) :
    parseIntSigned neg cs = if -128 ≤ n ∧ n ≤ 127 then .ok n else .error .outOfRange := by
  obtain ⟨m, hm, hn⟩ := withSign_some _ _ _ h
  rw [parseIntSigned_unsigned neg cs m hm]
  subst hn
  cases neg
  · by_cases h1 : m ≤ 127
    · have : -128 ≤ (m : Int) ∧ (m : Int) ≤ 127 := by omega
      simp [h1, this]
    · have : ¬ (-128 ≤ (m : Int) ∧ (m : Int) ≤ 127) := by omega
      simp [h1, this]
  · by_cases h1 : m ≤ 128
    · have : -128 ≤ -(m : Int) ∧ -(m : Int) ≤ 127 := by omega
      simp [h1, this]
    · have : ¬ (-128 ≤ -(m : Int) ∧ -(m : Int) ≤ 127) := by omega
      simp [h1, this]

theorem parseInt_decimal (s : String) (n : Int) (h : decimalValue s = some n) :
    ParseInt s = if -128 ≤ n ∧ n ≤ 127 then .ok n else .error .outOfRange := by
  unfold decimalValue at h
  unfold ParseInt
  split at h
  · simp at h
  · rename_i c cs hs
    split at h
    · rename_i hc
      simp only [hc, if_true]
      exact parseIntSigned_withSign _ _ _ h
    · rename_i hc
      split at h
      · rename_i hc2
        simp only [hc, hc2, if_true, if_false]
        exact parseIntSigned_withSign _ _ _ h
      · rename_i hc2
        simp only [hc, hc2, if_false]
        exact parseIntSigned_withSign _ _ _ h


/-! ## updateTodos -/

theorem editAll_of_not_hasId (k : Nat) (title : GoString) (cb : Option Bool) (l : List Todo)
    (h : ¬ HasId k l) : editAll k title cb l = l := by
  unfold editAll
  conv_rhs => rw [← List.map_id l]
  apply List.map_congr_left
  intro t ht
  have : ¬ t.ID = k := fun e => h ⟨t, ht, e⟩
  simp [this]

theorem hasId_cons (k : Nat) (t : Todo) (l : List Todo) :
    HasId k (t :: l) ↔ t.ID = k ∨ HasId k l := by
  simp [HasId]

/-- The loop with a completed argument that is empty or parses. -/
theorem updateLoop_good (id : Int) (title : GoString) (completedStr : String)
    (hc : completedStr = "" ∨ ∃ b, ParseBool completedStr = .ok b) (l : List Todo) :
    ∀ found, updateLoop id title completedStr found l =
      .ok (found || decide (HasId (uint8 id) l),
        editAll (uint8 id) title (flagArg completedStr) l) := by
  induction l with
  | nil => intro found; simp [updateLoop, editAll, HasId]
  | cons t ts ih =>
    intro found
    unfold updateLoop
    by_cases hm : t.ID = uint8 id
    · simp only [hm, if_true]
      by_cases he : completedStr = ""
      · subst he
        simp [ih, editAll, applyEdit, flagArg, hasId_cons, hm]
      · rcases hc with hc | ⟨b, hb⟩
        · exact absurd hc he
        · simp [he, hb, ih, editAll, applyEdit, flagArg, hasId_cons, hm]
    · simp only [hm, if_false, ih]
      simp [editAll, hasId_cons, hm]

/-- The loop with a completed argument that is not empty and does not parse. -/
theorem updateLoop_bad (id : Int) (title : GoString) (completedStr : String) (e : NumError)
    (hne : completedStr ≠ "") (hb : ParseBool completedStr = .error e) (l : List Todo) :
    ∀ found, updateLoop id title completedStr found l =
      if HasId (uint8 id) l then .error (.invalidCompleted e) else .ok (found, l) := by
  induction l with
  | nil => intro found; simp [updateLoop, HasId]
  | cons t ts ih =>
    intro found
    unfold updateLoop
    by_cases hm : t.ID = uint8 id
    · simp [hm, hne, hb, hasId_cons]
    · simp only [hm, if_false, ih, hasId_cons, false_or]
      by_cases hh : HasId (uint8 id) ts <;> simp [hh]

theorem updateTodos_stored (J : Json) (d : List Char) (l : List Todo) (off : Nat)
    (h : Stored J d l) (idStr : String) (title : GoString) (completedStr : String) :
    updateTodos J idStr title completedStr ⟨d, off⟩ =
      match ParseInt idStr with
      | .error e => (.error (.invalidID e), ⟨d, min (J.Consumed d) d.length⟩)
      | .ok id =>
        if HasId (uint8 id) l then
          if completedStr = "" ∨ ∃ b, ParseBool completedStr = .ok b then
            (.ok (), ⟨J.Encode ⟨editAll (uint8 id) title (flagArg completedStr) l⟩,
              (J.Encode ⟨editAll (uint8 id) title (flagArg completedStr) l⟩).length⟩)
          else (.error (.invalidCompleted .badSyntax), ⟨d, min (J.Consumed d) d.length⟩)
        else (.error (.notFound id), ⟨d, min (J.Consumed d) d.length⟩) := by
  unfold updateTodos
  rw [readFile_stored J d l off h]
  simp only
  cases hp : ParseInt idStr with
  | error e => rfl
  | ok id =>
    simp only
    by_cases hc : completedStr = "" ∨ ∃ b, ParseBool completedStr = .ok b
    · rw [updateLoop_good id title completedStr hc l false]
      by_cases hm : HasId (uint8 id) l
      · rw [if_pos hm, if_pos hc]
        simp [hm, write_fresh]
      · rw [if_neg hm]
        simp [hm]
    · have hne : completedStr ≠ "" := fun e => hc (Or.inl e)
      have hb : ParseBool completedStr = .error .badSyntax := by
        cases hq : ParseBool completedStr with
        | ok b => exact absurd (Or.inr ⟨b, hq⟩) hc
        | error e => cases e with
          | badSyntax => rfl
          | outOfRange =>
            unfold ParseBool at hq
            split at hq
            · cases hq
            · split at hq <;> cases hq
      rw [updateLoop_bad id title completedStr _ hne hb l false]
      by_cases hm : HasId (uint8 id) l
      · rw [if_pos hm, if_neg hc]
        simp [hm]
      · rw [if_neg hm]
        simp [hm]

theorem updateTodos_zero (J : Json) (hJ : J.Lawful) (off : Nat) (idStr : String) (title : GoString) (completedStr : String) :
    updateTodos J idStr title completedStr ⟨[], off⟩ =
      match ParseInt idStr with
      | .error e => (.error (.invalidID e), ⟨J.Encode ⟨[]⟩, (J.Encode ⟨[]⟩).length⟩)
      | .ok id => (.error (.notFound id), ⟨J.Encode ⟨[]⟩, (J.Encode ⟨[]⟩).length⟩) := by
  unfold updateTodos
  rw [readFile_zero J hJ off]
  simp only
  cases hp : ParseInt idStr with
  | error e => rfl
  | ok id => simp [updateLoop]


theorem coerceTodo_applyEdit (title : GoString) (cb : Option Bool) (t : Todo)
    (hv : ValidUTF8 t.Title) :
    coerceTodo (applyEdit title cb t) = applyEdit (coerceUTF8 title) cb t := by
  have hv1 : coerceUTF8 t.Title = t.Title := hv
  by_cases ht : title = []
  · subst ht
    have h0 : coerceUTF8 ([] : GoString) = [] := rfl
    cases cb <;> simp [applyEdit, coerceTodo, h0, hv1]
  · have hne : coerceUTF8 title ≠ [] := fun h => ht ((coerceUTF8_eq_nil title).1 h)
    cases cb <;> simp [applyEdit, coerceTodo, ht, hne]

theorem map_coerceTodo_editAll (k : Nat) (title : GoString) (cb : Option Bool) (l : List Todo)
    (hv : ∀ t ∈ l, ValidUTF8 t.Title) :
    (editAll k title cb l).map coerceTodo = editAll k (coerceUTF8 title) cb l := by
  unfold editAll
  rw [List.map_map]
  apply List.map_congr_left
  intro t ht
  have hv1 : coerceUTF8 t.Title = t.Title := hv t ht
  simp only [Function.comp]
  split
  · exact coerceTodo_applyEdit title cb t (hv t ht)
  · simp only [coerceTodo, hv1]

theorem editAll_ids (k : Nat) (title : GoString) (cb : Option Bool) (l : List Todo) :
    (editAll k title cb l).map Todo.ID = l.map Todo.ID := by
  unfold editAll
  rw [List.map_map]
  apply List.map_congr_left
  intro t _
  simp only [Function.comp]
  split
  · unfold applyEdit
    split <;> split <;> rfl
  · rfl

theorem inRange_editAll (k : Nat) (title : GoString) (cb : Option Bool) (l : List Todo)
    (hr : InRange l) : InRange (editAll k title cb l) := by
  intro t ht
  have : t.ID ∈ (editAll k title cb l).map Todo.ID := List.mem_map_of_mem _ ht
  rw [editAll_ids] at this
  obtain ⟨t0, ht0, h0⟩ := List.mem_map.1 this
  rw [← h0]; exact hr t0 ht0

theorem stored_after_update (J : Json) (hJ : J.Lawful) (d : List Char) (l : List Todo)
    (h : Stored J d l) (k : Nat) (title : GoString) (cb : Option Bool) :
    Stored J (J.Encode ⟨editAll k title cb l⟩) (editAll k (coerceUTF8 title) cb l) := by
  have hr := inRange_editAll k title cb l (hJ.decode_range d l h)
  have := stored_encode_coerced J hJ _ hr
  rwa [map_coerceTodo_editAll k title cb l (hJ.decode_valid d l h)] at this

/-! ## Ids given by createTodo -/

theorem le_maxIdOf (l : List Todo) (t : Todo) (ht : t ∈ l) : t.ID ≤ maxIdOf l := by
  induction l with
  | nil => simp at ht
  | cons a as ih =>
    simp only [maxIdOf, List.foldr_cons]
    rcases List.mem_cons.1 ht with h | h
    · subst h; exact Nat.le_max_left _ _
    · exact Nat.le_trans (ih h) (Nat.le_max_right _ _)

theorem maxIdOf_le (l : List Todo) (b : Nat) (h : ∀ t ∈ l, t.ID ≤ b) : maxIdOf l ≤ b := by
  induction l with
  | nil => simp [maxIdOf]
  | cons a as ih =>
    simp only [maxIdOf, List.foldr_cons]
    exact Nat.max_le.2 ⟨h a (by simp), ih (fun t ht => h t (by simp [ht]))⟩

theorem listing_after_creates (J : Json) (hJ : J.Lawful) (titles : List GoString) :
    listing J (run J (titles.map Cmd.createTodo) []) = .ok (createAll titles []) :=
  listing_holds J hJ _ _ (run_creates J hJ titles [] [] (Or.inr ⟨rfl, rfl⟩))

set_option maxRecDepth 100000 in
theorem idsAfter_256 : idsAfter 256 [] = List.range' 1 255 ++ [0] := by decide

set_option maxRecDepth 100000 in
theorem idsAfter_257 : idsAfter 257 [] = List.range' 1 255 ++ [0, 1] := by decide

/-! ## The claims -/

/-- C1, at 256 creations: starting from a file of zero bytes, 256 calls of
`createTodo`, whatever the titles, leave the ids 1, 2, ..., 255 followed by 0.
The id of the 256th todo is below the ids given before it, so the ids are not
strictly increasing in creation order. -/
theorem createTodo_ids_wrap (J : Json) (hJ : J.Lawful) (titles : List GoString)
    (hn : titles.length = 256) :
    ∃ l, listing J (run J (titles.map Cmd.createTodo) []) = .ok l ∧
      l.map Todo.ID = List.range' 1 255 ++ [0] ∧
      ¬ (l.map Todo.ID).Pairwise (fun a b => a < b) := by
  have hids : (createAll titles []).map Todo.ID = List.range' 1 255 ++ [0] := by
    rw [createAll_ids, hn]
    exact idsAfter_256
  refine ⟨createAll titles [], listing_after_creates J hJ titles, hids, ?_⟩
  rw [hids]
  intro hp
  have h1 : 1 ∈ List.range' 1 255 := by simp [List.mem_range']
  have h0 : 0 ∈ [0] := by simp
  have := (List.pairwise_append.1 hp).2.2 1 h1 0 h0
  omega

theorem createTodo_ids_wrap_witness :
    ∃ l, listing refJson (run refJson ((List.replicate 256 (goString "todo")).map Cmd.createTodo) []) = .ok l ∧
      l.map Todo.ID = List.range' 1 255 ++ [0] ∧
      ¬ (l.map Todo.ID).Pairwise (fun a b => a < b) :=
  createTodo_ids_wrap refJson refJson_lawful (List.replicate 256 (goString "todo"))
    (List.length_replicate 256 (goString "todo"))

/-- C2, at 257 creations: starting from a file of zero bytes, 257 calls of
`createTodo`, whatever the titles, leave a document in which the first and
the last todo both have the id 1, so the ids of the document are not
pairwise distinct. -/
theorem createTodo_ids_repeat (J : Json) (hJ : J.Lawful) (titles : List GoString)
    (hn : titles.length = 257) :
    ∃ l, listing J (run J (titles.map Cmd.createTodo) []) = .ok l ∧
      l.map Todo.ID = List.range' 1 255 ++ [0, 1] ∧ ¬ (l.map Todo.ID).Nodup := by
  have hids : (createAll titles []).map Todo.ID = List.range' 1 255 ++ [0, 1] := by
    rw [createAll_ids, hn]
    exact idsAfter_257
  refine ⟨createAll titles [], listing_after_creates J hJ titles, hids, ?_⟩
  rw [hids]
  intro hnd
  have hdis := (List.nodup_append.1 hnd).2.2
  have h1 : 1 ∈ List.range' 1 255 := by simp [List.mem_range']
  have h2 : 1 ∈ [0, 1] := by simp
  exact hdis h1 h2

theorem createTodo_ids_repeat_witness :
    ∃ l, listing refJson (run refJson ((List.replicate 257 (goString "todo")).map Cmd.createTodo) []) = .ok l ∧
      l.map Todo.ID = List.range' 1 255 ++ [0, 1] ∧ ¬ (l.map Todo.ID).Nodup :=
  createTodo_ids_repeat refJson refJson_lawful (List.replicate 257 (goString "todo"))
    (List.length_replicate 257 (goString "todo"))

/-- C3, at a list that holds the id 255: `createTodo` appends a todo (stored
with its title coerced to UTF-8, which is the title itself when that is
well-formed UTF-8) whose id is at most 255, while the largest id present is
255; the new id is not the largest id plus one.  After a single todo with
the id 255 the new id is 0. -/
theorem createTodo_id_after_255 (J : Json) (hJ : J.Lawful) (d : List Char) (l : List Todo)
    (title : GoString) (h : Stored J d l) (h255 : HasId 255 l) :
    listing J (exec J (.createTodo title) d) = .ok (l ++ [coerceTodo (newTodo title l)]) ∧
      maxIdOf l = 255 ∧ (newTodo title l).ID ≤ 255 ∧ (newTodo title l).ID ≠ maxIdOf l + 1 ∧
      (∀ t : Todo, t.ID = 255 → (newTodo title [t]).ID = 0) ∧
      (ValidUTF8 title →
        listing J (exec J (.createTodo title) d) = .ok (l ++ [newTodo title l])) := by
  have hr : InRange l := hJ.decode_range d l h
  have hmax : maxIdOf l = 255 := by
    obtain ⟨t, ht, hid⟩ := h255
    have h1 := le_maxIdOf l t ht
    have h2 := maxIdOf_le l 255 (fun t ht => Nat.le_of_lt_succ (hr t ht))
    omega
  have hlt : (newTodo title l).ID < 256 := maxIdLoop_lt l 1 (by decide)
  have hl := listing_holds J hJ _ _ (Or.inl (exec_create_holds J hJ d l (Or.inl h) title))
  refine ⟨hl, hmax, by omega, by omega, ?_, fun hv => ?_⟩
  · intro t ht
    simp [newTodo, maxIdLoop, ht]
  · have hv1 : coerceUTF8 title = title := hv
    have hc : coerceTodo (newTodo title l) = newTodo title l := by
      simp only [coerceTodo, newTodo, hv1]
    rw [hc] at hl
    exact hl

theorem createTodo_id_after_255_witness :
    listing refJson (exec refJson (.createTodo (goString "b"))
        (refJson.Encode ⟨[⟨255, goString "a", false⟩]⟩))
        = .ok ([⟨255, goString "a", false⟩]
            ++ [coerceTodo (newTodo (goString "b") [⟨255, goString "a", false⟩])]) ∧
      maxIdOf [⟨255, goString "a", false⟩] = 255 ∧
      (newTodo (goString "b") [⟨255, goString "a", false⟩]).ID ≤ 255 ∧
      (newTodo (goString "b") [⟨255, goString "a", false⟩]).ID
        ≠ maxIdOf [⟨255, goString "a", false⟩] + 1 ∧
      (∀ t : Todo, t.ID = 255 → (newTodo (goString "b") [t]).ID = 0) ∧
      (ValidUTF8 (goString "b") →
        listing refJson (exec refJson (.createTodo (goString "b"))
          (refJson.Encode ⟨[⟨255, goString "a", false⟩]⟩))
          = .ok ([⟨255, goString "a", false⟩]
              ++ [newTodo (goString "b") [⟨255, goString "a", false⟩]])) :=
  createTodo_id_after_255 refJson refJson_lawful _ [⟨255, goString "a", false⟩] (goString "b")
    (stored_encode refJson refJson_lawful _ (by decide) (by decide)) (by decide)

/-- C4, as it fails: on a stored empty document, `createTodo` with the title
of the three bytes 61 ff 62 returns without error, and `listTodos` then
returns one todo whose title is the five bytes 61 ef bf bd 62, not the title
that was given: `encoding/json` wrote the byte ff as an escape for U+FFFD. -/
theorem createTodo_then_listTodos_counterexample :
    Stored refJson (refJson.Encode ⟨[]⟩) [] ∧
    (createTodo refJson [97, 255, 98] (openFile (refJson.Encode ⟨[]⟩))).1 = .ok () ∧
    (createTodo refJson [97, 255, 98] (openFile (refJson.Encode ⟨[]⟩))).2.data
      = "\x7b\"Todos\":[\x7b\"id\":1,\"title\":\"a\x5cufffdb\",\"completed\":false\x7d]\x7d\n".data ∧
    listing refJson (createTodo refJson [97, 255, 98] (openFile (refJson.Encode ⟨[]⟩))).2.data
      = .ok [⟨1, [97, 239, 191, 189, 98], false⟩] ∧
    ([97, 239, 191, 189, 98] : GoString) ≠ [97, 255, 98] ∧
    ¬ ValidUTF8 [97, 255, 98] := by
  refine ⟨by decide, by decide, by decide, by decide, by decide, by decide⟩

/-- C4, amended: when the store holds the list `l` (as a document, or as the
empty list of a file of zero bytes) and the title is well-formed UTF-8 (the
empty string included), `createTodo title` returns without error and a
following `listTodos`, from any file offset, returns `l` followed by one new
todo with the given title and `Completed = false`. -/
theorem createTodo_then_listTodos (J : Json) (hJ : J.Lawful) (d : List Char) (l : List Todo)
    (title : GoString) (h : Holds J d l) (hv : ValidUTF8 title) :
    (createTodo J title (openFile d)).1 = .ok () ∧
      ∃ id, ∀ off, (listTodos J ⟨(createTodo J title (openFile d)).2.data, off⟩).1
        = .ok (l ++ [{ ID := id, Title := title, Completed := false }]) := by
  have hs := stored_after_create J hJ d l h title
  have hc : coerceTodo (newTodo title l) = newTodo title l := by
    have hv1 : coerceUTF8 title = title := hv
    simp only [coerceTodo, newTodo, hv1]
  rw [hc] at hs
  simp only [openFile, createTodo_holds J hJ d l h title 0, true_and]
  refine ⟨maxIdLoop 1 l, fun off => ?_⟩
  rw [listTodos_stored J _ _ off hs]
  rfl

theorem createTodo_then_listTodos_witness :
    ((createTodo refJson (goString "") (openFile (refJson.Encode ⟨[⟨7, goString "a", true⟩]⟩))).1
        = .ok () ∧
      ∃ id, ∀ off, (listTodos refJson
          ⟨(createTodo refJson (goString "")
            (openFile (refJson.Encode ⟨[⟨7, goString "a", true⟩]⟩))).2.data, off⟩).1
        = .ok ([⟨7, goString "a", true⟩]
            ++ [{ ID := id, Title := goString "", Completed := false }])) ∧
    ((createTodo refJson (goString "café") (openFile [])).1 = .ok () ∧
      ∃ id, ∀ off, (listTodos refJson
          ⟨(createTodo refJson (goString "café") (openFile [])).2.data, off⟩).1
        = .ok ([] ++ [{ ID := id, Title := goString "café", Completed := false }])) :=
  ⟨createTodo_then_listTodos refJson refJson_lawful _ [⟨7, goString "a", true⟩] (goString "")
    (Or.inl (stored_encode refJson refJson_lawful _ (by decide) (by decide))) (by decide),
   createTodo_then_listTodos refJson refJson_lawful [] [] (goString "café")
    (Or.inr ⟨rfl, rfl⟩) (by decide)⟩

/-- For any title: after `createTodo title` the store holds `l` followed by
the new todo with the title coerced to UTF-8. -/
theorem createTodo_then_listTodos_coerced (J : Json) (hJ : J.Lawful) (d : List Char)
    (l : List Todo) (title : GoString) (h : Holds J d l) :
    listing J (exec J (.createTodo title) d)
      = .ok (l ++ [{ ID := maxIdLoop 1 l, Title := coerceUTF8 title, Completed := false }]) :=
  listing_holds J hJ _ _ (Or.inl (exec_create_holds J hJ d l h title))


/-! ## createTodo below the wrap -/

theorem maxIdOfIds_eq (ids : List Nat) (h : ∀ i ∈ ids, i < 255) :
    ∀ m, maxIdOfIds m ids = max m (boundOf ids) := by
  induction ids with
  | nil => intro m; simp [maxIdOfIds, boundOf]
  | cons i rest ih =>
    intro m
    have hi : i < 255 := h i (by simp)
    have ih1 := ih (fun j hj => h j (by simp [hj]))
    have hmod : (i + 1) % 256 = i + 1 := Nat.mod_eq_of_lt (by omega)
    simp only [maxIdOfIds, boundOf, List.foldr_cons, hmod]
    split
    · rw [ih1]; simp only [boundOf]; omega
    · rw [ih1]; simp only [boundOf]; omega

theorem boundOf_append (xs : List Nat) (a : Nat) :
    boundOf (xs ++ [a]) = max (boundOf xs) (a + 1) := by
  induction xs with
  | nil => simp [boundOf]
  | cons x xs ih =>
    simp only [boundOf, List.cons_append, List.foldr_cons] at ih ⊢
    rw [ih]; omega

theorem boundOf_range (k : Nat) : max 1 (boundOf (List.range' 1 k)) = k + 1 := by
  induction k with
  | zero => simp [boundOf]
  | succ k ih =>
    rw [List.range'_1_concat, boundOf_append]
    omega

theorem idsAfter_range (n : Nat) : ∀ k, k + n ≤ 255 →
    idsAfter n (List.range' 1 k) = List.range' 1 (k + n) := by
  induction n with
  | zero => intro k _; rfl
  | succ n ih =>
    intro k hk
    have hlt : ∀ i ∈ List.range' 1 k, i < 255 := by
      intro i hi
      simp only [List.mem_range'_1] at hi
      omega
    have hnext : maxIdOfIds 1 (List.range' 1 k) = 1 + k := by
      rw [maxIdOfIds_eq _ hlt, boundOf_range]; omega
    simp only [idsAfter]
    rw [hnext, ← List.range'_1_concat, ih (k + 1) (by omega)]
    congr 1
    omega

/-- Below the wrap: from a file of zero bytes, `n ≤ 255` calls of
`createTodo` give the ids 1, 2, ..., n in creation order. -/
theorem createTodo_ids_below_wrap (J : Json) (hJ : J.Lawful) (titles : List GoString)
    (hn : titles.length ≤ 255) :
    ∃ l, listing J (run J (titles.map Cmd.createTodo) []) = .ok l ∧
      l.map Todo.ID = List.range' 1 titles.length := by
  refine ⟨createAll titles [], listing_after_creates J hJ titles, ?_⟩
  rw [createAll_ids]
  have := idsAfter_range titles.length 0 (by omega)
  simpa using this

theorem boundOf_ids (l : List Todo) (hl : l ≠ []) : boundOf (l.map Todo.ID) = maxIdOf l + 1 := by
  induction l with
  | nil => exact absurd rfl hl
  | cons t ts ih =>
    cases ts with
    | nil => simp [boundOf, maxIdOf]
    | cons t1 ts1 =>
      have := ih (by simp)
      simp only [boundOf, maxIdOf, List.map_cons, List.foldr_cons] at this ⊢
      omega

/-- Below the wrap: when every stored id is below 255, the id of the
new todo is the largest stored id plus one, and 1 for the empty list. -/
theorem newTodo_id_below_wrap (title : GoString) (l : List Todo) (h : ∀ t ∈ l, t.ID < 255) :
    (newTodo title l).ID = if l = [] then 1 else maxIdOf l + 1 := by
  have hids : ∀ i ∈ l.map Todo.ID, i < 255 := by
    intro i hi
    obtain ⟨t, ht, rfl⟩ := List.mem_map.1 hi
    exact h t ht
  show maxIdLoop 1 l = _
  rw [maxIdLoop_ids, maxIdOfIds_eq _ hids]
  by_cases hl : l = []
  · subst hl; simp [boundOf]
  · rw [if_neg hl, boundOf_ids l hl]; omega


theorem uint8_of_nonneg (n : Int) (h0 : 0 ≤ n) (h : n ≤ 255) : (uint8 n : Int) = n := by
  unfold uint8
  omega

theorem forall₂_editAll (R : Todo → Todo → Prop) (k : Nat) (title : GoString) (cb : Option Bool)
    (l : List Todo)
    (h : ∀ t ∈ l, R t (if t.ID = k then applyEdit title cb t else t)) :
    List.Forall₂ R l (editAll k title cb l) := by
  unfold editAll
  rw [List.forall₂_map_right_iff, List.forall₂_same]
  exact h

/-- C5, as it fails: the id argument `300` is the id of no stored todo, and
`updateTodos` reports an invalid id, not a todo that was not found; the id
argument `-1` is the id of no stored todo either, and `updateTodos` succeeds
and rewrites the document, changing the todo whose id is 255. -/
theorem updateTodos_unmatched_id_counterexample :
    (decimalValue "300" = some 300 ∧
      (∀ t ∈ [(⟨1, goString "a", false⟩ : Todo)], (t.ID : Int) ≠ 300) ∧
      refJson.Decode (refJson.Encode ⟨[⟨1, goString "a", false⟩]⟩) = .value ⟨[⟨1, goString "a", false⟩]⟩ ∧
      (updateTodos refJson "300" (goString "") "" (openFile (refJson.Encode ⟨[⟨1, goString "a", false⟩]⟩))).1
        = .error (.invalidID .outOfRange)) ∧
    (decimalValue "-1" = some (-1) ∧
      (∀ t ∈ [(⟨255, goString "a", false⟩ : Todo)], (t.ID : Int) ≠ -1) ∧
      refJson.Decode (refJson.Encode ⟨[⟨255, goString "a", false⟩]⟩) = .value ⟨[⟨255, goString "a", false⟩]⟩ ∧
      (updateTodos refJson "-1" (goString "b") ""
          (openFile (refJson.Encode ⟨[⟨255, goString "a", false⟩]⟩))).1
        = .ok () ∧
      (updateTodos refJson "-1" (goString "b") ""
          (openFile (refJson.Encode ⟨[⟨255, goString "a", false⟩]⟩))).2.data
        = refJson.Encode ⟨[⟨255, goString "b", false⟩]⟩ ∧
      refJson.Encode ⟨[⟨255, goString "b", false⟩]⟩ ≠ refJson.Encode ⟨[⟨255, goString "a", false⟩]⟩) := by
  refine ⟨⟨by decide, by decide, by decide, by decide⟩,
    ⟨by decide, by decide, by decide, by decide, by decide, by decide⟩⟩

/-- C5, amended: for a stored document, an id argument that is the decimal
numeral of an integer `n` with `0 ≤ n ≤ 127` which is the id of no stored
todo, and any title and completed argument, `updateTodos` returns the error
"todo with ID n not found" and the content of the file is unchanged. -/
theorem updateTodos_not_found (J : Json) (d : List Char) (l : List Todo)
    (idStr : String) (title : GoString) (completedStr : String) (n : Int)
    (h : Stored J d l) (hn : decimalValue idStr = some n) (h0 : 0 ≤ n) (h127 : n ≤ 127)
    (hno : ∀ t ∈ l, (t.ID : Int) ≠ n) :
    (updateTodos J idStr title completedStr (openFile d)).1 = .error (.notFound n) ∧
      (updateTodos J idStr title completedStr (openFile d)).2.data = d := by
  have hp : ParseInt idStr = .ok n := by
    rw [parseInt_decimal idStr n hn, if_pos ⟨by omega, h127⟩]
  have hm : ¬ HasId (uint8 n) l := by
    rintro ⟨t, ht, hid⟩
    apply hno t ht
    rw [hid]
    exact uint8_of_nonneg n h0 (by omega)
  simp only [openFile, updateTodos_stored J d l 0 h, hp, if_neg hm, and_self]

theorem updateTodos_not_found_witness :
    (updateTodos refJson "2" (goString "x") "true" (openFile (refJson.Encode ⟨[⟨1, goString "a", false⟩]⟩))).1
        = .error (.notFound 2) ∧
      (updateTodos refJson "2" (goString "x") "true" (openFile (refJson.Encode ⟨[⟨1, goString "a", false⟩]⟩))).2.data
        = refJson.Encode ⟨[⟨1, goString "a", false⟩]⟩ :=
  updateTodos_not_found refJson _ [⟨1, goString "a", false⟩] "2" (goString "x") "true" 2
    (stored_encode refJson refJson_lawful _ (by decide) (by decide)) (by decide) (by decide) (by decide) (by decide)

/-- C6, as it fails: on a stored document with one todo of id 1,
`updateTodos` with the id argument `1`, the title of the three bytes 61 ff 62
and an empty completed argument returns without error, and the title of the
todo is then the five bytes 61 ef bf bd 62, not the new title. -/
theorem updateTodos_frame_counterexample :
    Stored refJson (refJson.Encode ⟨[⟨1, goString "a", false⟩]⟩) [⟨1, goString "a", false⟩] ∧
    (updateTodos refJson "1" [97, 255, 98] ""
      (openFile (refJson.Encode ⟨[⟨1, goString "a", false⟩]⟩))).1 = .ok () ∧
    listing refJson (updateTodos refJson "1" [97, 255, 98] ""
      (openFile (refJson.Encode ⟨[⟨1, goString "a", false⟩]⟩))).2.data
      = .ok [⟨1, [97, 239, 191, 189, 98], false⟩] ∧
    ([97, 239, 191, 189, 98] : GoString) ≠ [97, 255, 98] ∧
    ([97, 255, 98] : GoString) ≠ [] ∧
    ¬ ValidUTF8 [97, 255, 98] := by
  refine ⟨by decide, by decide, by decide, by decide, by decide, by decide⟩

/-- C6, amended: whenever `updateTodos` returns without error and its title
argument is well-formed UTF-8, the file was a document with some list `l`,
the id argument parsed to some `id`, and the file is now a document with a
list `l1` that `listTodos` returns, of the same length and order as `l` and
with the same ids, such that: with a title that is not empty and an empty
completed argument, every todo whose id is `uint8 id` has the new title and
its old flag, and every other todo is unchanged; with an empty title and a
completed argument that is not empty, the argument parses to a boolean `b`,
every todo whose id is `uint8 id` has the flag `b` and its old title, and
every other todo is unchanged.  The argument `false` parses to `false`. -/
theorem updateTodos_frame (J : Json) (hJ : J.Lawful) (d : List Char)
    (idStr : String) (title : GoString) (completedStr : String)
    (hv : ValidUTF8 title)
    (hok : (updateTodos J idStr title completedStr (openFile d)).1 = .ok ()) :
    ∃ l id l1, Stored J d l ∧ ParseInt idStr = .ok id ∧ HasId (uint8 id) l ∧
      Stored J (updateTodos J idStr title completedStr (openFile d)).2.data l1 ∧
      listing J (updateTodos J idStr title completedStr (openFile d)).2.data = .ok l1 ∧
      l1.length = l.length ∧ l1.map Todo.ID = l.map Todo.ID ∧
      (title ≠ [] → completedStr = "" →
        List.Forall₂ (fun t t1 =>
          (t.ID = uint8 id → t1 = { t with Title := title }) ∧ (t.ID ≠ uint8 id → t1 = t)) l l1) ∧
      (title = [] → completedStr ≠ "" →
        ∃ b, ParseBool completedStr = .ok b ∧
          List.Forall₂ (fun t t1 =>
            (t.ID = uint8 id → t1 = { t with Completed := b }) ∧ (t.ID ≠ uint8 id → t1 = t)) l l1) ∧
      ParseBool "false" = .ok false := by
  have hv1 : coerceUTF8 title = title := hv
  cases hdec : J.Decode d with
  | failure =>
    exfalso
    simp [updateTodos, readFile, openFile, File.Seek0, hdec] at hok
  | eof =>
    exfalso
    simp only [updateTodos, readFile, openFile, File.Seek0, List.drop_zero, hdec] at hok
    cases hp : ParseInt idStr with
    | error e => simp [hp] at hok
    | ok id => simp [hp, updateLoop] at hok
  | value t =>
    obtain ⟨l⟩ := t
    have hs : Stored J d l := hdec
    rw [show openFile d = ⟨d, 0⟩ from rfl, updateTodos_stored J d l 0 hs] at hok ⊢
    cases hp : ParseInt idStr with
    | error e => simp [hp] at hok
    | ok id =>
      simp only [hp] at hok ⊢
      by_cases hm : HasId (uint8 id) l
      · by_cases hc : completedStr = "" ∨ ∃ b, ParseBool completedStr = .ok b
        · rw [if_pos hm, if_pos hc]
          have hids := editAll_ids (uint8 id) title (flagArg completedStr) l
          have hs1 := stored_after_update J hJ d l hs (uint8 id) title (flagArg completedStr)
          rw [hv1] at hs1
          refine ⟨l, id, editAll (uint8 id) title (flagArg completedStr) l, hs, rfl, hm, hs1,
            listing_holds J hJ _ _ (Or.inl hs1), by simp [editAll], hids, ?_, ?_, by decide⟩
          · intro ht he
            subst he
            apply forall₂_editAll
            intro t _
            by_cases hid : t.ID = uint8 id
            · simp [hid, applyEdit, flagArg, ht]
            · simp [hid]
          · intro ht he
            rcases hc with hc | ⟨b, hb⟩
            · exact absurd hc he
            · refine ⟨b, hb, ?_⟩
              subst ht
              apply forall₂_editAll
              intro t _
              by_cases hid : t.ID = uint8 id
              · simp [hid, applyEdit, flagArg, he, hb]
              · simp [hid]
        · rw [if_pos hm, if_neg hc] at hok
          cases hok
      · rw [if_neg hm] at hok
        cases hok

theorem updateTodos_frame_witness :
    (∃ l id l1,
      Stored refJson (refJson.Encode ⟨[⟨1, goString "a", true⟩, ⟨2, goString "b", false⟩]⟩) l ∧
      ParseInt "2" = .ok id ∧ HasId (uint8 id) l ∧
      Stored refJson (updateTodos refJson "2" (goString "c") "" (openFile
        (refJson.Encode ⟨[⟨1, goString "a", true⟩, ⟨2, goString "b", false⟩]⟩))).2.data l1 ∧
      listing refJson (updateTodos refJson "2" (goString "c") "" (openFile
        (refJson.Encode ⟨[⟨1, goString "a", true⟩, ⟨2, goString "b", false⟩]⟩))).2.data
        = .ok l1 ∧
      l1.length = l.length ∧ l1.map Todo.ID = l.map Todo.ID ∧
      (goString "c" ≠ [] → "" = "" →
        List.Forall₂ (fun t t1 =>
          (t.ID = uint8 id → t1 = { t with Title := goString "c" }) ∧
            (t.ID ≠ uint8 id → t1 = t)) l l1) ∧
      (goString "c" = [] → "" ≠ "" →
        ∃ b, ParseBool "" = .ok b ∧
          List.Forall₂ (fun t t1 =>
            (t.ID = uint8 id → t1 = { t with Completed := b }) ∧ (t.ID ≠ uint8 id → t1 = t)) l l1) ∧
      ParseBool "false" = .ok false) ∧
    (∃ l id l1,
      Stored refJson (refJson.Encode ⟨[⟨1, goString "a", true⟩, ⟨2, goString "b", false⟩]⟩) l ∧
      ParseInt "1" = .ok id ∧ HasId (uint8 id) l ∧
      Stored refJson (updateTodos refJson "1" (goString "") "false" (openFile
        (refJson.Encode ⟨[⟨1, goString "a", true⟩, ⟨2, goString "b", false⟩]⟩))).2.data l1 ∧
      listing refJson (updateTodos refJson "1" (goString "") "false" (openFile
        (refJson.Encode ⟨[⟨1, goString "a", true⟩, ⟨2, goString "b", false⟩]⟩))).2.data
        = .ok l1 ∧
      l1.length = l.length ∧ l1.map Todo.ID = l.map Todo.ID ∧
      (goString "" ≠ [] → "false" = "" →
        List.Forall₂ (fun t t1 =>
          (t.ID = uint8 id → t1 = { t with Title := goString "" }) ∧
            (t.ID ≠ uint8 id → t1 = t)) l l1) ∧
      (goString "" = [] → "false" ≠ "" →
        ∃ b, ParseBool "false" = .ok b ∧
          List.Forall₂ (fun t t1 =>
            (t.ID = uint8 id → t1 = { t with Completed := b }) ∧ (t.ID ≠ uint8 id → t1 = t)) l l1) ∧
      ParseBool "false" = .ok false) :=
  ⟨updateTodos_frame refJson refJson_lawful _ "2" (goString "c") "" (by decide) (by decide),
   updateTodos_frame refJson refJson_lawful _ "1" (goString "") "false" (by decide) (by decide)⟩

/-- C7: for a stored document, any id argument and any title, and a completed
argument that is not empty and is not a boolean, `updateTodos` returns an
error, the content of the file is unchanged, and `listTodos` still returns the
stored list: the title of the call is not persisted.  When the id argument
parses and matches a stored todo, the error is "invalid completed value". -/
theorem updateTodos_bad_completed (J : Json) (d : List Char) (l : List Todo)
    (idStr : String) (title : GoString) (completedStr : String) (e : NumError)
    (h : Stored J d l) (hne : completedStr ≠ "") (hb : ParseBool completedStr = .error e) :
    (∃ err, (updateTodos J idStr title completedStr (openFile d)).1 = .error err) ∧
      (updateTodos J idStr title completedStr (openFile d)).2.data = d ∧
      (∀ off, (listTodos J
        ⟨(updateTodos J idStr title completedStr (openFile d)).2.data, off⟩).1 = .ok l) ∧
      (∀ id, ParseInt idStr = .ok id → HasId (uint8 id) l →
        (updateTodos J idStr title completedStr (openFile d)).1 = .error (.invalidCompleted e)) := by
  have hc : ¬ (completedStr = "" ∨ ∃ b, ParseBool completedStr = .ok b) := by
    rintro (hc | ⟨b, hc⟩)
    · exact hne hc
    · rw [hb] at hc; cases hc
  have he : e = .badSyntax := by
    cases e with
    | badSyntax => rfl
    | outOfRange =>
      unfold ParseBool at hb
      split at hb
      · cases hb
      · split at hb <;> cases hb
  subst he
  have hdata : (updateTodos J idStr title completedStr (openFile d)).2.data = d := by
    rw [show openFile d = ⟨d, 0⟩ from rfl, updateTodos_stored J d l 0 h]
    cases hp : ParseInt idStr with
    | error e => rfl
    | ok id =>
      simp only
      by_cases hm : HasId (uint8 id) l
      · rw [if_pos hm, if_neg hc]
      · rw [if_neg hm]
  refine ⟨?_, hdata, ?_, ?_⟩
  · rw [show openFile d = ⟨d, 0⟩ from rfl, updateTodos_stored J d l 0 h]
    cases hp : ParseInt idStr with
    | error e => exact ⟨_, rfl⟩
    | ok id =>
      simp only
      by_cases hm : HasId (uint8 id) l
      · rw [if_pos hm, if_neg hc]; exact ⟨_, rfl⟩
      · rw [if_neg hm]; exact ⟨_, rfl⟩
  · intro off
    rw [hdata, listTodos_stored J d l off h]
  · intro id hp hm
    rw [show openFile d = ⟨d, 0⟩ from rfl, updateTodos_stored J d l 0 h, hp]
    simp only
    rw [if_pos hm, if_neg hc]

theorem updateTodos_bad_completed_witness :
    (∃ err, (updateTodos refJson "1" (goString "new") "yes"
        (openFile (refJson.Encode ⟨[⟨1, goString "a", false⟩]⟩))).1 = .error err) ∧
      (updateTodos refJson "1" (goString "new") "yes" (openFile (refJson.Encode ⟨[⟨1, goString "a", false⟩]⟩))).2.data
        = refJson.Encode ⟨[⟨1, goString "a", false⟩]⟩ ∧
      (∀ off, (listTodos refJson
        ⟨(updateTodos refJson "1" (goString "new") "yes"
          (openFile (refJson.Encode ⟨[⟨1, goString "a", false⟩]⟩))).2.data, off⟩).1
          = .ok [⟨1, goString "a", false⟩]) ∧
      (∀ id, ParseInt "1" = .ok id → HasId (uint8 id) [⟨1, goString "a", false⟩] →
        (updateTodos refJson "1" (goString "new") "yes" (openFile (refJson.Encode ⟨[⟨1, goString "a", false⟩]⟩))).1
          = .error (.invalidCompleted .badSyntax)) :=
  updateTodos_bad_completed refJson _ [⟨1, goString "a", false⟩] "1" (goString "new") "yes"
    .badSyntax
    (stored_encode refJson refJson_lawful _ (by decide) (by decide)) (by decide) (by decide)

/-- C8: whatever the file holds, and wherever its offset is, `clearTodos`
returns without error and a following `listTodos`, on the same handle or in a
later run, returns the empty list. -/
theorem clearTodos_then_listTodos (J : Json) (hJ : J.Lawful) (f : File) :
    (clearTodos J f).1 = .ok () ∧
      (listTodos J (clearTodos J f).2).1 = .ok [] ∧
      listing J (clearTodos J f).2.data = .ok [] := by
  have hs : Stored J (J.Encode ⟨[]⟩) [] := stored_encode_nil J hJ
  have hc : clearTodos J f = (.ok (), ⟨J.Encode ⟨[]⟩, (J.Encode ⟨[]⟩).length⟩) := by
    show (Result.ok (), (f.Seek0.Truncate0).Write (J.Encode ⟨[]⟩)) = _
    rw [write_fresh]
  rw [hc]
  refine ⟨rfl, ?_, listing_holds J hJ _ _ (Or.inl hs)⟩
  rw [listTodos_stored J _ _ _ hs]

theorem clearTodos_then_listTodos_witness :
    (clearTodos refJson (openFile (refJson.Encode ⟨[⟨1, goString "a", false⟩, ⟨1, goString "b", true⟩]⟩))).1
        = .ok () ∧
      (listTodos refJson
        (clearTodos refJson (openFile (refJson.Encode ⟨[⟨1, goString "a", false⟩, ⟨1, goString "b", true⟩]⟩))).2).1
        = .ok [] ∧
      listing refJson
        (clearTodos refJson (openFile (refJson.Encode ⟨[⟨1, goString "a", false⟩, ⟨1, goString "b", true⟩]⟩))).2.data
        = .ok [] :=
  clearTodos_then_listTodos refJson refJson_lawful _

/-- C9: on a file of zero bytes `readFile` and `listTodos` return the empty
list without error and leave the file holding the encoded empty document,
which is not zero bytes; a second load of that file returns the empty list
and leaves the file as it is.  With the reference encoder the file then holds
the line `{"Todos":[]}`. -/
theorem readFile_zero_bytes (J : Json) (hJ : J.Lawful) :
    (readFile J (openFile [])).1 = .ok ⟨[]⟩ ∧
      (readFile J (openFile [])).2.data = J.Encode ⟨[]⟩ ∧
      (listTodos J (openFile [])).1 = .ok [] ∧
      (listTodos J (openFile [])).2.data = J.Encode ⟨[]⟩ ∧
      J.Encode ⟨[]⟩ ≠ [] ∧
      (readFile J (openFile (J.Encode ⟨[]⟩))).1 = .ok ⟨[]⟩ ∧
      (readFile J (openFile (J.Encode ⟨[]⟩))).2.data = J.Encode ⟨[]⟩ ∧
      refJson.Encode ⟨[]⟩ = "\x7b\"Todos\":[]\x7d\n".data := by
  have hr : InRange [] := by intro t ht; simp at ht
  have hs : Stored J (J.Encode ⟨[]⟩) [] := stored_encode_nil J hJ
  have h0 := readFile_zero J hJ 0
  have h1 := readFile_stored J _ _ 0 hs
  refine ⟨?_, ?_, ?_, ?_, encode_ne_nil J hJ [] hr, ?_, ?_, by decide⟩
  · rw [show openFile [] = ⟨[], 0⟩ from rfl, h0]
  · rw [show openFile [] = ⟨[], 0⟩ from rfl, h0]
  · simp [listTodos, openFile, h0]
  · simp [listTodos, openFile, h0]
  · rw [show openFile (J.Encode ⟨[]⟩) = ⟨J.Encode ⟨[]⟩, 0⟩ from rfl, h1]
  · rw [show openFile (J.Encode ⟨[]⟩) = ⟨J.Encode ⟨[]⟩, 0⟩ from rfl, h1]

theorem readFile_zero_bytes_witness :
    (readFile refJson (openFile [])).1 = .ok ⟨[]⟩ ∧
      (readFile refJson (openFile [])).2.data = refJson.Encode ⟨[]⟩ ∧
      (listTodos refJson (openFile [])).1 = .ok [] ∧
      (listTodos refJson (openFile [])).2.data = refJson.Encode ⟨[]⟩ ∧
      refJson.Encode ⟨[]⟩ ≠ [] ∧
      (readFile refJson (openFile (refJson.Encode ⟨[]⟩))).1 = .ok ⟨[]⟩ ∧
      (readFile refJson (openFile (refJson.Encode ⟨[]⟩))).2.data = refJson.Encode ⟨[]⟩ ∧
      refJson.Encode ⟨[]⟩ = "\x7b\"Todos\":[]\x7d\n".data :=
  readFile_zero_bytes refJson refJson_lawful


/-- C10: for a stored document and an id argument that is the decimal numeral
of an integer `n`:
if `-128 ≤ n ≤ 127`, the argument parses to `n`; `updateTodos` returns without
error exactly when some stored todo has the id `n mod 256` and the completed
argument is empty or a boolean; it then rewrites the document, editing the
todos whose id is `n mod 256` and no others (`listTodos` then returns the
edited list, with the new title coerced to UTF-8, which is the new title
itself when that is well-formed UTF-8); when it returns an error the file is
unchanged;
if `n < -128` or `127 < n`, `updateTodos` returns the error "invalid ID" and
the file is unchanged, whatever ids are stored; on a file of zero bytes it
returns the same error and the list stays empty.
The id argument `-1` stands for the id 255. -/
theorem updateTodos_id_signed8 (J : Json) (hJ : J.Lawful) (d : List Char) (l : List Todo)
    (idStr : String) (title : GoString) (completedStr : String) (n : Int)
    (h : Stored J d l) (hn : decimalValue idStr = some n) :
    (-128 ≤ n → n ≤ 127 →
      ParseInt idStr = .ok n ∧
      ((updateTodos J idStr title completedStr (openFile d)).1 = .ok () ↔
        HasId (n % 256).toNat l ∧ (completedStr = "" ∨ ∃ b, ParseBool completedStr = .ok b)) ∧
      ((updateTodos J idStr title completedStr (openFile d)).1 = .ok () →
        (updateTodos J idStr title completedStr (openFile d)).2.data
          = J.Encode ⟨l.map fun t =>
              if t.ID = (n % 256).toNat then applyEdit title (flagArg completedStr) t else t⟩ ∧
        listing J (updateTodos J idStr title completedStr (openFile d)).2.data
          = .ok (l.map fun t =>
              if t.ID = (n % 256).toNat then applyEdit (coerceUTF8 title) (flagArg completedStr) t
              else t) ∧
        (ValidUTF8 title →
          listing J (updateTodos J idStr title completedStr (openFile d)).2.data
            = .ok (l.map fun t =>
                if t.ID = (n % 256).toNat then applyEdit title (flagArg completedStr) t else t))) ∧
      ((updateTodos J idStr title completedStr (openFile d)).1 ≠ .ok () →
        (updateTodos J idStr title completedStr (openFile d)).2.data = d)) ∧
    (n < -128 ∨ 127 < n →
      (updateTodos J idStr title completedStr (openFile d)).1 = .error (.invalidID .outOfRange) ∧
      (updateTodos J idStr title completedStr (openFile d)).2.data = d ∧
      (updateTodos J idStr title completedStr (openFile [])).1
        = .error (.invalidID .outOfRange) ∧
      listing J (updateTodos J idStr title completedStr (openFile [])).2.data = .ok []) ∧
    ((-1 : Int) % 256).toNat = 255 := by
  have hall := updateTodos_stored J d l 0 h idStr title completedStr
  have hpi := parseInt_decimal idStr n hn
  refine ⟨?_, ?_, by decide⟩
  · intro h1 h2
    have hp : ParseInt idStr = .ok n := by rw [hpi, if_pos ⟨h1, h2⟩]
    rw [hp] at hall
    simp only at hall
    rw [show openFile d = ⟨d, 0⟩ from rfl, hall]
    have hk : uint8 n = (n % 256).toNat := rfl
    rw [hk]
    refine ⟨hp, ?_, ?_, ?_⟩
    · constructor
      · intro hok
        by_cases hm : HasId (n % 256).toNat l
        · by_cases hc : completedStr = "" ∨ ∃ b, ParseBool completedStr = .ok b
          · exact ⟨hm, hc⟩
          · rw [if_pos hm, if_neg hc] at hok; cases hok
        · rw [if_neg hm] at hok; cases hok
      · rintro ⟨hm, hc⟩
        rw [if_pos hm, if_pos hc]
    · intro hok
      by_cases hm : HasId (n % 256).toNat l
      · by_cases hc : completedStr = "" ∨ ∃ b, ParseBool completedStr = .ok b
        · rw [if_pos hm, if_pos hc]
          have hl := listing_holds J hJ _ _
            (Or.inl (stored_after_update J hJ d l h (n % 256).toNat title (flagArg completedStr)))
          refine ⟨rfl, hl, fun hv => ?_⟩
          have hv1 : coerceUTF8 title = title := hv
          rw [hv1] at hl
          exact hl
        · rw [if_pos hm, if_neg hc] at hok; cases hok
      · rw [if_neg hm] at hok; cases hok
    · intro hno
      by_cases hm : HasId (n % 256).toNat l
      · by_cases hc : completedStr = "" ∨ ∃ b, ParseBool completedStr = .ok b
        · rw [if_pos hm, if_pos hc] at hno; exact absurd rfl hno
        · rw [if_pos hm, if_neg hc]
      · rw [if_neg hm]
  · intro hout
    have hp : ParseInt idStr = .error .outOfRange := by
      rw [hpi, if_neg (by omega)]
    rw [hp] at hall
    have hz := updateTodos_zero J hJ 0 idStr title completedStr
    rw [hp] at hz
    rw [show openFile d = ⟨d, 0⟩ from rfl, hall, show openFile [] = ⟨[], 0⟩ from rfl, hz]
    refine ⟨rfl, rfl, rfl, ?_⟩
    exact listing_holds J hJ _ _ (Or.inl (stored_encode_nil J hJ))

theorem updateTodos_id_signed8_witness :
    ((-128 ≤ (-1 : Int) → (-1 : Int) ≤ 127 →
      ParseInt "-1" = .ok (-1) ∧
      ((updateTodos refJson "-1" (goString "b") ""
          (openFile (refJson.Encode ⟨[⟨255, goString "a", false⟩]⟩))).1
          = .ok () ↔
        HasId ((-1 : Int) % 256).toNat [⟨255, goString "a", false⟩] ∧
          ("" = "" ∨ ∃ b, ParseBool "" = .ok b)) ∧
      ((updateTodos refJson "-1" (goString "b") ""
          (openFile (refJson.Encode ⟨[⟨255, goString "a", false⟩]⟩))).1
          = .ok () →
        (updateTodos refJson "-1" (goString "b") ""
          (openFile (refJson.Encode ⟨[⟨255, goString "a", false⟩]⟩))).2.data
          = refJson.Encode ⟨[(⟨255, goString "a", false⟩ : Todo)].map fun t =>
              if t.ID = ((-1 : Int) % 256).toNat then applyEdit (goString "b") (flagArg "") t
              else t⟩ ∧
        listing refJson
          (updateTodos refJson "-1" (goString "b") ""
          (openFile (refJson.Encode ⟨[⟨255, goString "a", false⟩]⟩))).2.data
          = .ok ([(⟨255, goString "a", false⟩ : Todo)].map fun t =>
              if t.ID = ((-1 : Int) % 256).toNat then
                applyEdit (coerceUTF8 (goString "b")) (flagArg "") t
              else t) ∧
        (ValidUTF8 (goString "b") →
          listing refJson
            (updateTodos refJson "-1" (goString "b") ""
          (openFile (refJson.Encode ⟨[⟨255, goString "a", false⟩]⟩))).2.data
            = .ok ([(⟨255, goString "a", false⟩ : Todo)].map fun t =>
                if t.ID = ((-1 : Int) % 256).toNat then applyEdit (goString "b") (flagArg "") t
                else t))) ∧
      ((updateTodos refJson "-1" (goString "b") ""
          (openFile (refJson.Encode ⟨[⟨255, goString "a", false⟩]⟩))).1
          ≠ .ok () →
        (updateTodos refJson "-1" (goString "b") ""
          (openFile (refJson.Encode ⟨[⟨255, goString "a", false⟩]⟩))).2.data
          = refJson.Encode ⟨[⟨255, goString "a", false⟩]⟩)) ∧
    ((-1 : Int) < -128 ∨ 127 < (-1 : Int) →
      (updateTodos refJson "-1" (goString "b") ""
          (openFile (refJson.Encode ⟨[⟨255, goString "a", false⟩]⟩))).1
        = .error (.invalidID .outOfRange) ∧
      (updateTodos refJson "-1" (goString "b") ""
          (openFile (refJson.Encode ⟨[⟨255, goString "a", false⟩]⟩))).2.data
        = refJson.Encode ⟨[⟨255, goString "a", false⟩]⟩ ∧
      (updateTodos refJson "-1" (goString "b") "" (openFile [])).1 = .error (.invalidID .outOfRange) ∧
      listing refJson (updateTodos refJson "-1" (goString "b") "" (openFile [])).2.data = .ok []) ∧
    ((-1 : Int) % 256).toNat = 255) ∧
    (updateTodos refJson "200" (goString "b") "" (openFile (refJson.Encode ⟨[⟨200, goString "a", false⟩]⟩))).1
        = .error (.invalidID .outOfRange) ∧
    (updateTodos refJson "200" (goString "b") "" (openFile (refJson.Encode ⟨[⟨200, goString "a", false⟩]⟩))).2.data
        = refJson.Encode ⟨[⟨200, goString "a", false⟩]⟩ ∧
    (updateTodos refJson "200" (goString "b") "" (openFile [])).1 = .error (.invalidID .outOfRange) ∧
    listing refJson (updateTodos refJson "200" (goString "b") "" (openFile [])).2.data = .ok [] :=
  ⟨updateTodos_id_signed8 refJson refJson_lawful _ [⟨255, goString "a", false⟩] "-1"
      (goString "b") "" (-1)
    (stored_encode refJson refJson_lawful _ (by decide) (by decide)) (by decide),
   (updateTodos_id_signed8 refJson refJson_lawful _ [⟨200, goString "a", false⟩] "200"
      (goString "b") "" 200
    (stored_encode refJson refJson_lawful _ (by decide) (by decide)) (by decide)).2.1 (Or.inr (by decide))⟩

end LocalTodo
